import Mathlib

namespace SkiaPictureData

/-- Little-endian byte decomposition of a 32-bit word, as written by
`SkWStream::write32` on a little-endian host.  A value at or above two to the
thirty-two is truncated, matching `SkToU32`-release behaviour. -/
def u32Bytes (w : Nat) : List Nat :=
  [w % 256, w / 256 % 256, w / 65536 % 256, w / 16777216 % 256]

/-- Read a little-endian 32-bit word from the front of a byte stream
(`SkStream::readU32`); fails when fewer than four bytes remain. -/
def readU32 : List Nat → Option (Nat × List Nat)
  | a :: b :: c :: d :: r => some (a + 256 * b + 65536 * c + 16777216 * d, r)
  | _ => none

/-- Read exactly `n` bytes from the stream (`SkStream::read`); fails on a
short read, matching the `read(...) != len` checks in the source. -/
def readBytes : Nat → List Nat → Option (List Nat × List Nat)
  | 0, s => some ([], s)
  | _ + 1, [] => none
  | n + 1, a :: s =>
      match readBytes n s with
      | some (xs, r) => some (a :: xs, r)
      | none => none

/-- Modelled from the spec: the variable-length unsigned encoding used for
factory names (spec section 4.1): a single byte below 255 encodes the value
directly; otherwise the byte 255 is followed by a 32-bit word.
(`SkWStream::writePackedUInt` lives outside the sources.) -/
def packedUIntBytes (v : Nat) : List Nat :=
  if v < 255 then [v] else 255 :: u32Bytes v

/-- Modelled from the spec: size of the packed encoding
(`SkWStream::SizeOfPackedUInt`). -/
def sizeOfPackedUInt (v : Nat) : Nat :=
  if v < 255 then 1 else 5

/-- Modelled from the spec: `SkStream::readPackedUInt`. -/
def readPackedUInt : List Nat → Option (Nat × List Nat)
  | [] => none
  | b :: r => if b < 255 then some (b, r) else readU32 r

/-- Four-character tag constant (`SkSetFourByteTag`). -/
def fourByteTag (a b c d : Nat) : Nat :=
  a * 16777216 + b * 65536 + c * 256 + d

def SK_PICT_READER_TAG : Nat := fourByteTag 114 101 97 100
def SK_PICT_FACTORY_TAG : Nat := fourByteTag 102 97 99 116
def SK_PICT_TYPEFACE_TAG : Nat := fourByteTag 116 112 102 99
def SK_PICT_PICTURE_TAG : Nat := fourByteTag 112 99 116 114
def SK_PICT_DRAWABLE_TAG : Nat := fourByteTag 100 114 97 119
def SK_PICT_PAINT_BUFFER_TAG : Nat := fourByteTag 112 110 116 32
def SK_PICT_PATH_BUFFER_TAG : Nat := fourByteTag 112 116 104 32
def SK_PICT_TEXTBLOB_BUFFER_TAG : Nat := fourByteTag 98 108 111 98
def SK_PICT_VERTICES_BUFFER_TAG : Nat := fourByteTag 118 101 114 116
def SK_PICT_IMAGE_BUFFER_TAG : Nat := fourByteTag 105 109 97 103
def SK_PICT_BUFFER_SIZE_TAG : Nat := fourByteTag 97 114 97 121
def SK_PICT_EOF_TAG : Nat := fourByteTag 101 111 102 32

/-- Two 32-bit words: a tag followed by a size (`write_tag_size`). -/
def tagSizeBytes (tag n : Nat) : List Nat :=
  u32Bytes tag ++ u32Bytes n

/-- Abstract interface to the black-box flattenables consumed by the codec
(spec sections 1 and 6): paints, paths, text blobs, vertices, images,
drawables and typefaces each come with their own encoder and fallible
decoder, which the picture codec treats opaquely.  The factory and typeface
recording that happens transparently while a paint or blob is flattened is
exposed as the pure functions `paintFacs`, `paintTfs` and `blobTfs`; the
name registry (`SkFlattenable::FactoryToName` / `NameToFactory`) is the pair
`facName` / `nameToFac`.  Buffer-side decoders receive the read buffer's
factory and typeface playback tables, mirroring `SkReadBuffer`'s embedded
playbacks. -/
structure Codec : Type 1 where
  Paint : Type
  Path : Type
  Blob : Type
  Vert : Type
  Image : Type
  Drawable : Type
  Tf : Type
  Fac : Type
  encPaint : Paint → List Nat
  encPath : Path → List Nat
  encBlob : Blob → List Nat
  encVert : Vert → List Nat
  encImage : Image → List Nat
  tfEnc : Tf → List Nat
  paintFacs : Paint → List Fac
  paintTfs : Paint → List Tf
  blobTfs : Blob → List Tf
  facSame : Fac → Fac → Bool
  tfSame : Tf → Tf → Bool
  facName : Fac → Option (List Nat)
  nameToFac : List Nat → Option Fac
  decPaint : List Nat → List (Option Fac) → List Tf → Option (Paint × List Nat)
  decPath : List Nat → Option (Path × List Nat)
  decBlob : List Nat → List (Option Fac) → List Tf → Option (Blob × List Nat)
  decVertPayload : List Nat → Option Vert
  decImage : List Nat → List (Option Fac) → List Tf → Option (Image × List Nat)
  decDraw : List Nat → List (Option Fac) → List Tf → Option (Drawable × List Nat)
  tfDec : List Nat → Option Tf × List Nat
  tfDefault : Tf
  paintDefault : Paint
  pathDefault : Path

/-- The in-memory picture container (`SkPictureData` on the encode side):
the opcode blob plus one ordered array per resource kind and the owned
sub-pictures (spec section 3). -/
inductive Pic (C : Codec) : Type where
  | mk : (opData : List Nat) → (paints : List C.Paint) → (paths : List C.Path) →
      (blobs : List C.Blob) → (verts : List C.Vert) → (images : List C.Image) →
      (draws : List C.Drawable) → (pics : List (Pic C)) → Pic C

namespace Pic

variable {C : Codec}

def opData : Pic C → List Nat | .mk o _ _ _ _ _ _ _ => o
def paints : Pic C → List C.Paint | .mk _ x _ _ _ _ _ _ => x
def paths : Pic C → List C.Path | .mk _ _ x _ _ _ _ _ => x
def blobs : Pic C → List C.Blob | .mk _ _ _ x _ _ _ _ => x
def verts : Pic C → List C.Vert | .mk _ _ _ _ x _ _ _ => x
def images : Pic C → List C.Image | .mk _ _ _ _ _ x _ _ => x
def draws : Pic C → List C.Drawable | .mk _ _ _ _ _ _ x _ => x
def pics : Pic C → List (Pic C) | .mk _ _ _ _ _ _ _ x => x

end Pic

/-- The decode-side picture (`SkPictureData` as populated by
`CreateFromStream` / `CreateFromBuffer`): identical to `Pic` except that the
opcode blob is optional, because the decoder only assigns `fOpData` when a
`READER` section is present. -/
inductive DPic (C : Codec) : Type where
  | mk : (opData : Option (List Nat)) → (paints : List C.Paint) → (paths : List C.Path) →
      (blobs : List C.Blob) → (verts : List C.Vert) → (images : List C.Image) →
      (draws : List C.Drawable) → (pics : List (DPic C)) → DPic C

namespace DPic

variable {C : Codec}

def opData : DPic C → Option (List Nat) | .mk o _ _ _ _ _ _ _ => o
def paints : DPic C → List C.Paint | .mk _ x _ _ _ _ _ _ => x
def paths : DPic C → List C.Path | .mk _ _ x _ _ _ _ _ => x
def blobs : DPic C → List C.Blob | .mk _ _ _ x _ _ _ _ => x
def verts : DPic C → List C.Vert | .mk _ _ _ _ x _ _ _ => x
def images : DPic C → List C.Image | .mk _ _ _ _ _ x _ _ => x
def draws : DPic C → List C.Drawable | .mk _ _ _ _ _ _ x _ => x
def pics : DPic C → List (DPic C) | .mk _ _ _ _ _ _ _ x => x

end DPic

mutual
/-- The decode-side image of an encode-side picture: same fields with the
opcode blob marked present. -/
def toD {C : Codec} : Pic C → DPic C
  | .mk o pa pt bl vt im dr ps => .mk (some o) pa pt bl vt im dr (toDList ps)

/-- Pointwise `toD` on a list of sub-pictures. -/
def toDList {C : Codec} : List (Pic C) → List (DPic C)
  | [] => []
  | p :: ps => toD p :: toDList ps
end

section Encoder

variable (C : Codec)

/-- Insertion into a deduplicating pointer set (`SkPtrSet::add`): append the
element unless an identical one is already recorded; insertion order is
first-appearance order, which is the order `copyToArray` later exposes. -/
def addFac (s : List C.Fac) (f : C.Fac) : List C.Fac :=
  if s.any (fun g => C.facSame g f) then s else s ++ [f]

/-- Deduplicating insert for the typeface set (`SkRefCntSet::add`). -/
def addTf (s : List C.Tf) (t : C.Tf) : List C.Tf :=
  if s.any (fun u => C.tfSame u t) then s else s ++ [t]

def addFacAll (s : List C.Fac) (fs : List C.Fac) : List C.Fac :=
  fs.foldl (addFac C) s

def addTfAll (s : List C.Tf) (ts : List C.Tf) : List C.Tf :=
  ts.foldl (addTf C) s

/-- Factories recorded while `flattenToBuffer` runs: each paint's factories
in paint order (the factory recorder is attached to the scratch write
buffer, `buffer.setFactoryRecorder`). -/
def flatFacs (P : Pic C) (s : List C.Fac) : List C.Fac :=
  P.paints.foldl (fun a p => addFacAll C a (C.paintFacs p)) s

/-- Typefaces recorded while `flattenToBuffer` runs: each paint's typefaces
in paint order, then each text blob's (the typeface recorder is attached to
the scratch write buffer, `buffer.setTypefaceRecorder`). -/
def flatTfs (P : Pic C) (s : List C.Tf) : List C.Tf :=
  P.blobs.foldl (fun a b => addTfAll C a (C.blobTfs b))
    (P.paints.foldl (fun a p => addTfAll C a (C.paintTfs p)) s)

/-- Modelled from the spec: a length-prefixed byte array on the structured
buffer (`SkWriteBuffer::writeDataAsByteArray`, outside the sources): a
32-bit length, the bytes, then zero padding to a 4-byte boundary
(spec section 4.1). -/
def byteArrayBytes (bs : List Nat) : List Nat :=
  u32Bytes bs.length ++ bs ++ List.replicate ((4 - bs.length % 4) % 4) 0

/-- The scratch-buffer payload produced by `SkPictureData::flattenToBuffer`:
one tagged section per non-empty resource kind, in the fixed order paints,
paths, text blobs, vertices, images.  The path section carries the redundant
inner count written by `buffer.writeInt(n)`; vertices are stored as
length-prefixed byte arrays of their own encoding. -/
def bufBytes (P : Pic C) : List Nat :=
  (if P.paints.isEmpty then [] else
    tagSizeBytes SK_PICT_PAINT_BUFFER_TAG P.paints.length ++
      (P.paints.map C.encPaint).flatten) ++
  (if P.paths.isEmpty then [] else
    tagSizeBytes SK_PICT_PATH_BUFFER_TAG P.paths.length ++
      u32Bytes P.paths.length ++ (P.paths.map C.encPath).flatten) ++
  (if P.blobs.isEmpty then [] else
    tagSizeBytes SK_PICT_TEXTBLOB_BUFFER_TAG P.blobs.length ++
      (P.blobs.map C.encBlob).flatten) ++
  (if P.verts.isEmpty then [] else
    tagSizeBytes SK_PICT_VERTICES_BUFFER_TAG P.verts.length ++
      (P.verts.map (fun v => byteArrayBytes (C.encVert v))).flatten) ++
  (if P.images.isEmpty then [] else
    tagSizeBytes SK_PICT_IMAGE_BUFFER_TAG P.images.length ++
      (P.images.map C.encImage).flatten)

mutual
/-- The full typeface-set side effect of one `SkPictureData::serialize` call
on the shared typeface set: `flattenToBuffer` records this picture's own
typefaces, then the sub-pictures are serialized twice (once into the discard
sink, once for real), each pass recording recursively. -/
def collectTfs {C : Codec} : Pic C → List C.Tf → List C.Tf
  | .mk o pa pt bl vt im dr ps, s =>
      collectTfsList ps (collectTfsList ps (flatTfs C (.mk o pa pt bl vt im dr ps) s))

/-- Fold of `collectTfs` across a sub-picture list. -/
def collectTfsList {C : Codec} : List (Pic C) → List C.Tf → List C.Tf
  | [], s => s
  | p :: ps, s => collectTfsList ps (collectTfs p s)
end

/-- The typeface list emitted by the top-level picture: the local set after
`flattenToBuffer` and the discard-sink pass over the sub-pictures, at which
point `WriteTypefaces` runs. -/
def topTfList (P : Pic C) : List C.Tf :=
  collectTfsList P.pics (flatTfs C P [])

/-- Bytes of one factory name entry (`WriteFactories` loop body): a null or
empty registered name is encoded as `packed_uint 0` alone, otherwise as the
packed length followed by the name bytes. -/
def facNameBytes (f : C.Fac) : List Nat :=
  match C.facName f with
  | none => packedUIntBytes 0
  | some nm => if nm.isEmpty then packedUIntBytes 0
               else packedUIntBytes nm.length ++ nm

/-- Byte size of the factory chunk (`compute_chunk_size`): four bytes for
the count plus each name entry's packed length and bytes. -/
def chunkSize (fs : List C.Fac) : Nat :=
  fs.foldl (fun a f =>
    a + match C.facName f with
        | none => sizeOfPackedUInt 0
        | some nm => if nm.isEmpty then sizeOfPackedUInt 0
                     else sizeOfPackedUInt nm.length + nm.length) 4

/-- The factory section (`SkPictureData::WriteFactories`): tag, chunk byte
size, 32-bit count, then the name entries. -/
def factorySection (fs : List C.Fac) : List Nat :=
  tagSizeBytes SK_PICT_FACTORY_TAG (chunkSize C fs) ++
    u32Bytes fs.length ++ (fs.map (facNameBytes C)).flatten

/-- The typeface section (`SkPictureData::WriteTypefaces`): tag, count, then
each typeface's own stream serialization. -/
def typefaceSection (ts : List C.Tf) : List Nat :=
  tagSizeBytes SK_PICT_TYPEFACE_TAG ts.length ++ (ts.map C.tfEnc).flatten

mutual
/-- Byte stream produced by `SkPictureData::serialize`.  `topPresent` is
true when a non-null `topLevelTypeFaceSet` was supplied (the sub-picture
case), in which case the typeface section is not emitted; sub-pictures are
serialized with the shared set, so they recurse with `topPresent = true`.
The sub-picture wrapper `SkPicture::serialize` is modelled from the spec's
wire grammar, in which each `PICTURE_TAG` entry is a nested archive. -/
def serBytes {C : Codec} (topPresent : Bool) : Pic C → List Nat
  | .mk o pa pt bl vt im dr ps =>
      let P : Pic C := .mk o pa pt bl vt im dr ps
      tagSizeBytes SK_PICT_READER_TAG o.length ++ o ++
      factorySection C (flatFacs C P []) ++
      (if topPresent then [] else typefaceSection C (topTfList C P)) ++
      tagSizeBytes SK_PICT_BUFFER_SIZE_TAG (bufBytes C P).length ++ bufBytes C P ++
      (if ps.isEmpty then [] else
        tagSizeBytes SK_PICT_PICTURE_TAG ps.length ++ serList ps) ++
      u32Bytes SK_PICT_EOF_TAG

/-- Concatenated serializations of the sub-pictures, each with the shared
typeface set supplied. -/
def serList {C : Codec} : List (Pic C) → List Nat
  | [] => []
  | p :: ps => serBytes true p ++ serList ps
end

end Encoder

section Decoder

variable (C : Codec)

/-- Modelled from the spec: the validating read buffer (`SkReadBuffer`,
outside the sources; spec section 4.5): a cursor over in-memory bytes with a
sticky validity flag, a version, and the factory and typeface playbacks
installed by `setupBuffer`. -/
structure RB (C : Codec) : Type where
  rem : List Nat
  valid : Bool
  version : Nat
  factPB : List (Option C.Fac)
  tfPB : List C.Tf

namespace RB

variable {C}

/-- Modelled from the spec: `SkReadBuffer::readUInt`; a read past the end
latches invalidity and yields zero, and reads on an invalid buffer yield
zero without consuming. -/
def readUInt (rb : RB C) : Nat × RB C :=
  if rb.valid then
    match readU32 rb.rem with
    | some (w, r) => (w, { rb with rem := r })
    | none => (0, { rb with valid := false })
  else (0, rb)

/-- Modelled from the spec: `SkReadBuffer::readInt` — the same 32-bit word
reinterpreted as a signed value. -/
def readInt (rb : RB C) : Int × RB C :=
  let (w, rb1) := rb.readUInt
  (if w < 2147483648 then (w : Int) else (w : Int) - 4294967296, rb1)

/-- Modelled from the spec: `SkReadBuffer::validate` — latch the sticky
flag on a false condition and report the resulting validity. -/
def validate (rb : RB C) (b : Bool) : Bool × RB C :=
  let v := rb.valid && b
  (v, { rb with valid := v })

/-- Modelled from the spec: `SkReadBuffer::readByteArrayAsData` — a 32-bit
length followed by the bytes padded to a 4-byte boundary; any shortfall
latches invalidity and yields nothing. -/
def readByteArrayAsData (rb : RB C) : Option (List Nat) × RB C :=
  let (len, rb1) := rb.readUInt
  if !rb1.valid then (none, rb1)
  else
    let padded := len + (4 - len % 4) % 4
    if padded ≤ rb1.rem.length then
      (some (rb1.rem.take len), { rb1 with rem := rb1.rem.drop padded })
    else (none, { rb1 with valid := false })

/-- Modelled from the spec: `SkReadBuffer::readByteArray` against an
expected length — the stored 32-bit count must equal the expectation. -/
def readByteArrayExpect (rb : RB C) (expected : Nat) : Option (List Nat) × RB C :=
  let (len, rb1) := rb.readUInt
  let (ok, rb2) := rb1.validate (len == expected)
  if !ok then (none, rb2)
  else
    let padded := len + (4 - len % 4) % 4
    if padded ≤ rb2.rem.length then
      (some (rb2.rem.take len), { rb2 with rem := rb2.rem.drop padded })
    else (none, { rb2 with valid := false })

end RB

/-- Decoder state: the fields of the `SkPictureData` being populated while
parsing (`fOpData`, the resource arrays, `fPictures`, `fFactoryPlayback`,
`fTFPlayback`). -/
structure DecSt (C : Codec) : Type where
  opData : Option (List Nat) := none
  paints : List C.Paint := []
  paths : List C.Path := []
  blobs : List C.Blob := []
  verts : List C.Vert := []
  images : List C.Image := []
  draws : List C.Drawable := []
  pics : List (DPic C) := []
  factPB : Option (List (Option C.Fac)) := none
  tfPB : List C.Tf := []

/-- A freshly constructed `SkPictureData` prior to decoding. -/
def emptySt : DecSt C := {}

/-- The picture view of a decoder state (the fields of the returned
`SkPictureData`). -/
def stToDPic {C : Codec} (st : DecSt C) : DPic C :=
  .mk st.opData st.paints st.paths st.blobs st.verts st.images st.draws st.pics

/-- The `SkTypefacePlayback*` argument threaded through decoding: a null
pointer, a pointer aliasing this very archive's own `fTFPlayback` (the
substitution made by `CreateFromStream` when its caller passes null), or a
pointer to a table owned elsewhere, captured by value. -/
inductive TopPtr (C : Codec) : Type where
  | null : TopPtr C
  | self : TopPtr C
  | tbl : List C.Tf → TopPtr C

/-- Result of a fallible decoding step: success, the ordinary failure that
makes the create functions return null, or the crash that dereferencing a
null `topLevelTFPlayback` would be. -/
inductive PRes (α : Type) : Type where
  | ok : α → PRes α
  | fail : PRes α
  | crash : PRes α

/-- The typeface table installed into the inner read buffer by the
`BUFFER_SIZE` handler (source lines 334-340): the archive's own playback
when it is populated, otherwise the table behind `topLevelTFPlayback` —
which is a null dereference when that pointer is null. -/
def chooseTfTable {C : Codec} (st : DecSt C) (top : TopPtr C) : Option (List C.Tf) :=
  if st.tfPB.length > 0 then some st.tfPB
  else match top with
       | .null => none
       | .self => some st.tfPB
       | .tbl t => some t

/-- The `SK_PICT_TYPEFACE_TAG` loop: deserialize `count` typefaces from the
stream, substituting the process-default typeface whenever
`SkTypeface::MakeDeserialize` fails. -/
def readTfs : Nat → List Nat → List C.Tf × List Nat
  | 0, s => ([], s)
  | n + 1, s =>
      let (ot, s1) := C.tfDec s
      let t := match ot with
               | some t => t
               | none => C.tfDefault
      let (ts, s2) := readTfs n s1
      (t :: ts, s2)

/-- The same typeface reads without the default substitution; used only to
state what the decoder's table refines. -/
def readTfsRaw : Nat → List Nat → List (Option C.Tf) × List Nat
  | 0, s => ([], s)
  | n + 1, s =>
      let (ot, s1) := C.tfDec s
      let (ts, s2) := readTfsRaw n s1
      (ot :: ts, s2)

/-- The `SK_PICT_FACTORY_TAG` loop: read `count` packed-length names and
resolve each through the global registry (`SkFlattenable::NameToFactory`);
any short read fails the archive. -/
def readFacs : Nat → List Nat → Option (List (Option C.Fac) × List Nat)
  | 0, s => some ([], s)
  | n + 1, s =>
      match readPackedUInt s with
      | none => none
      | some (len, s1) =>
        match readBytes len s1 with
        | none => none
        | some (nm, s2) =>
          match readFacs n s2 with
          | some (fs, s3) => some (C.nameToFac nm :: fs, s3)
          | none => none

/-- Buffer read of one paint (`SkReadBuffer::readPaint`); a failure latches
the buffer's validity. -/
def decPaintRB (rb : RB C) : Option C.Paint × RB C :=
  if rb.valid then
    match C.decPaint rb.rem rb.factPB rb.tfPB with
    | some (p, r) => (some p, { rb with rem := r })
    | none => (none, { rb with valid := false })
  else (none, rb)

/-- Buffer read of one path (`SkReadBuffer::readPath`); a failure latches
the buffer's validity. -/
def decPathRB (rb : RB C) : Option C.Path × RB C :=
  if rb.valid then
    match C.decPath rb.rem with
    | some (p, r) => (some p, { rb with rem := r })
    | none => (none, { rb with valid := false })
  else (none, rb)

/-- Factory for text blobs (`SkTextBlob::MakeFromBuffer`). -/
def blobFromBuffer (rb : RB C) : Option C.Blob × RB C :=
  if rb.valid then
    match C.decBlob rb.rem rb.factPB rb.tfPB with
    | some (b, r) => (some b, { rb with rem := r })
    | none => (none, { rb with valid := false })
  else (none, rb)

/-- Factory for images (`create_image_from_buffer`). -/
def imageFromBuffer (rb : RB C) : Option C.Image × RB C :=
  if rb.valid then
    match C.decImage rb.rem rb.factPB rb.tfPB with
    | some (b, r) => (some b, { rb with rem := r })
    | none => (none, { rb with valid := false })
  else (none, rb)

/-- Factory for drawables (`create_drawable_from_buffer`, via
`readFlattenable`). -/
def drawFromBuffer (rb : RB C) : Option C.Drawable × RB C :=
  if rb.valid then
    match C.decDraw rb.rem rb.factPB rb.tfPB with
    | some (b, r) => (some b, { rb with rem := r })
    | none => (none, { rb with valid := false })
  else (none, rb)

/-- Factory for vertices (`create_vertices_from_buffer`): read a
length-prefixed byte array, then decode it with `SkVertices::Decode`; a
decode failure returns null without touching the buffer. -/
def vertFromBuffer (rb : RB C) : Option C.Vert × RB C :=
  match rb.readByteArrayAsData with
  | (some bs, rb1) => (C.decVertPayload bs, rb1)
  | (none, rb1) => (none, rb1)

/-- The item loop of `new_array_from_buffer`: read items one at a time; any
null item (or an already-latched buffer) resets the whole array to empty,
latches invalidity and stops. -/
def naLoop {C : Codec} {α : Type} (fac : RB C → Option α × RB C) :
    Nat → RB C → List α → List α × RB C × Bool
  | 0, rb, acc => (acc, rb, true)
  | n + 1, rb, acc =>
      let (o, rb1) := fac rb
      match o with
      | none =>
          let (_, rb2) := rb1.validate false
          ([], rb2, false)
      | some x =>
          let (ok, rb2) := rb1.validate true
          if ok then naLoop fac n rb2 (acc ++ [x])
          else ([], rb2, false)

/-- `new_array_from_buffer` (source lines 369-391): validate that the
destination is empty and the count fits in an int, then read the items
all-or-nothing. -/
def newArrayFromBuffer {C : Codec} {α : Type} (fac : RB C → Option α × RB C)
    (rb : RB C) (inCount : Nat) (arr : List α) : List α × RB C × Bool :=
  let (ok, rb1) := rb.validate (arr.isEmpty && decide (inCount < 2147483648))
  if !ok then (arr, rb1, false)
  else if inCount = 0 then (arr, rb1, true)
  else naLoop fac inCount rb1 arr

/-- The `SK_PICT_PAINT_BUFFER_TAG` loop: `fPaints.push_back()` creates a
default-constructed slot which `readPaint` then fills; on a read failure
the handler returns at once, leaving the default slot in the array. -/
def readPaints : Nat → DecSt C → RB C → DecSt C × RB C
  | 0, st, rb => (st, rb)
  | n + 1, st, rb =>
      match decPaintRB C rb with
      | (some p, rb1) => readPaints n { st with paints := st.paints ++ [p] } rb1
      | (none, rb1) => ({ st with paints := st.paints ++ [C.paintDefault] }, rb1)

/-- The `SK_PICT_PATH_BUFFER_TAG` loop: push a slot, read into it, and stop
as soon as the buffer goes invalid. -/
def readPaths : Nat → DecSt C → RB C → DecSt C × RB C
  | 0, st, rb => (st, rb)
  | n + 1, st, rb =>
      match decPathRB C rb with
      | (some p, rb1) => readPaths n { st with paths := st.paths ++ [p] } rb1
      | (none, rb1) => ({ st with paths := st.paths ++ [C.pathDefault] }, rb1)

end Decoder

/-- The null-pointer substitution `CreateFromStream` performs on entry:
a null top-level playback argument is replaced by the archive's own
table. -/
def substTop {C : Codec} : TopPtr C → TopPtr C
  | .null => .self
  | .self => .self
  | .tbl t => .tbl t

/-- The `topLevelTFPlayback` pointer a `PICTURE` handler hands to each
recursive `SkPicture::MakeFromStream` call: the same pointer, whose
pointee — when it aliases the current archive's own table — is its value at
hand-off time. -/
def resolveChild {C : Codec} (st : DecSt C) : TopPtr C → TopPtr C
  | .null => .null
  | .self => .tbl st.tfPB
  | .tbl t => .tbl t

mutual

/-- The outer tag loop of `SkPictureData::parseStream` (source lines
481-498): read a tag, stop successfully on `EOF_TAG`, otherwise read a size
and dispatch; a handler failure fails the whole parse.  The first argument
of every function in this block is recursion fuel, a modelling device for
the decoder's recursion; all theorems below hold for all sufficiently large
fuel, and exhausted fuel reports plain failure. -/
def parseLoop {C : Codec} (v : Nat) :
    Nat → DecSt C → List Nat → TopPtr C → PRes (DecSt C × List Nat)
  | 0, _, _, _ => .fail
  | fuel + 1, st, s, top =>
      match readU32 s with
      | none => .fail
      | some (tag, s1) =>
        if tag = SK_PICT_EOF_TAG then .ok (st, s1)
        else
          match readU32 s1 with
          | none => .fail
          | some (size, s2) =>
            match parseStreamTag v fuel st s2 tag size top with
            | .ok (st2, s3) => parseLoop v fuel st2 s3 top
            | .fail => .fail
            | .crash => .crash

/-- `SkPictureData::parseStreamTag` (source lines 254-354).  The `READER`
handler consumes `size` opcode bytes; `FACTORY` re-reads its count and
resolves names; `TYPEFACE` reads `size` typefaces with default
substitution; `PICTURE` recursively reads `size` children, handing them the
current top-level playback; `BUFFER_SIZE` reads the structured buffer into
memory, requires a factory playback, installs the chosen typeface table and
runs the inner loop; any other tag falls out of the switch and reports
success without consuming anything. -/
def parseStreamTag {C : Codec} (v : Nat) :
    Nat → DecSt C → List Nat → Nat → Nat → TopPtr C → PRes (DecSt C × List Nat)
  | 0, _, _, _, _, _ => .fail
  | fuel + 1, st, s, tag, size, top =>
      if tag = SK_PICT_READER_TAG then
        match readBytes size s with
        | none => .fail
        | some (bs, s1) => .ok ({ st with opData := some bs }, s1)
      else if tag = SK_PICT_FACTORY_TAG then
        match readU32 s with
        | none => .fail
        | some (count, s1) =>
          match readFacs C count s1 with
          | none => .fail
          | some (fs, s2) => .ok ({ st with factPB := some fs }, s2)
      else if tag = SK_PICT_TYPEFACE_TAG then
        let (ts, s1) := readTfs C size s
        .ok ({ st with tfPB := ts }, s1)
      else if tag = SK_PICT_PICTURE_TAG then
        match readPics v fuel size s (resolveChild st top) with
        | .ok (ds, s1) => .ok ({ st with pics := st.pics ++ ds }, s1)
        | .fail => .fail
        | .crash => .crash
      else if tag = SK_PICT_BUFFER_SIZE_TAG then
        match readBytes size s with
        | none => .fail
        | some (storage, s1) =>
          match st.factPB with
          | none => .fail
          | some fpb =>
            match chooseTfTable st top with
            | none => .crash
            | some tt =>
              let rb0 : RB C :=
                { rem := storage, valid := true, version := v, factPB := fpb, tfPB := tt }
              let (st2, rb2) := innerLoop v fuel st rb0
              if rb2.valid then .ok (st2, s1) else .fail
      else .ok (st, s)

/-- The child loop of the `SK_PICT_PICTURE_TAG` handler: `size` recursive
`SkPicture::MakeFromStream` calls; a null child fails the archive. -/
def readPics {C : Codec} (v : Nat) :
    Nat → Nat → List Nat → TopPtr C → PRes (List (DPic C) × List Nat)
  | 0, _, _, _ => .fail
  | _ + 1, 0, s, _ => .ok ([], s)
  | fuel + 1, count + 1, s, top =>
      match createFromStream v fuel s top with
      | .ok (d, s1) =>
        match readPics v fuel count s1 top with
        | .ok (ds, s2) => .ok (d :: ds, s2)
        | .fail => .fail
        | .crash => .crash
      | .fail => .fail
      | .crash => .crash

/-- `SkPictureData::CreateFromStream` (source lines 455-468), composed with
the `SkPicture::MakeFromStream` wrapper that the spec's wire grammar makes
a plain nested archive: substitute the archive's own `fTFPlayback` for a
null top-level playback, parse, and return the populated picture or
null. -/
def createFromStream {C : Codec} (v : Nat) :
    Nat → List Nat → TopPtr C → PRes (DPic C × List Nat)
  | 0, _, _ => .fail
  | fuel + 1, s, top =>
      match parseLoop v fuel (emptySt C) s (substTop top) with
      | .ok (st, s1) => .ok (stToDPic st, s1)
      | .fail => .fail
      | .crash => .crash

/-- The inner tag loop of the `BUFFER_SIZE` handler (source lines 342-346):
while the buffer has bytes and remains valid, read a tag and a size and
dispatch to `parseBufferTag`. -/
def innerLoop {C : Codec} (v : Nat) : Nat → DecSt C → RB C → DecSt C × RB C
  | 0, st, rb => (st, rb)
  | fuel + 1, st, rb =>
      if rb.rem.isEmpty || !rb.valid then (st, rb)
      else
        let (tag, rb1) := rb.readUInt
        let (size, rb2) := rb1.readUInt
        let (st1, rb3) := parseBufferTag v fuel st rb2 tag size
        innerLoop v fuel st1 rb3

/-- `SkPictureData::parseBufferTag` (source lines 393-453): the structured
buffer's per-tag dispatch.  Unknown tags latch invalidity. -/
def parseBufferTag {C : Codec} (v : Nat) :
    Nat → DecSt C → RB C → Nat → Nat → DecSt C × RB C
  | 0, st, rb, _, _ => (st, rb)
  | fuel + 1, st, rb, tag, size =>
      if tag = SK_PICT_PAINT_BUFFER_TAG then
        let (ok, rb1) := rb.validate (decide (size < 2147483648))
        if !ok then (st, rb1)
        else readPaints C size st rb1
      else if tag = SK_PICT_PATH_BUFFER_TAG then
        if size > 0 then
          let (cnt, rb1) := rb.readInt
          let (ok, rb2) := rb1.validate (decide (0 ≤ cnt))
          if !ok then (st, rb2)
          else readPaths C cnt.toNat st rb2
        else (st, rb)
      else if tag = SK_PICT_TEXTBLOB_BUFFER_TAG then
        let (arr, rb1, _) := newArrayFromBuffer (blobFromBuffer C) rb size st.blobs
        ({ st with blobs := arr }, rb1)
      else if tag = SK_PICT_VERTICES_BUFFER_TAG then
        let (arr, rb1, _) := newArrayFromBuffer (vertFromBuffer C) rb size st.verts
        ({ st with verts := arr }, rb1)
      else if tag = SK_PICT_IMAGE_BUFFER_TAG then
        let (arr, rb1, _) := newArrayFromBuffer (imageFromBuffer C) rb size st.images
        ({ st with images := arr }, rb1)
      else if tag = SK_PICT_READER_TAG then
        let (ok, rb1) := rb.validate (decide (size ≤ rb.rem.length))
        if !ok then (st, rb1)
        else
          match rb1.readByteArrayExpect size with
          | (none, rb2) => (st, rb2)
          | (some bs, rb2) =>
            let (ok2, rb3) := rb2.validate st.opData.isNone
            if !ok2 then (st, rb3)
            else ({ st with opData := some bs }, rb3)
      else if tag = SK_PICT_PICTURE_TAG then
        let (arr, rb1, _) := naPics v fuel rb size st.pics
        ({ st with pics := arr }, rb1)
      else if tag = SK_PICT_DRAWABLE_TAG then
        let (arr, rb1, _) := newArrayFromBuffer (drawFromBuffer C) rb size st.draws
        ({ st with draws := arr }, rb1)
      else
        let (_, rb1) := rb.validate false
        (st, rb1)
  termination_by structural fuel st rb tag size => fuel

/-- `new_array_from_buffer` specialized to the recursive sub-picture
factory `SkPicturePriv::MakeFromBuffer` (the one factory that needs
recursion fuel); it mirrors `newArrayFromBuffer` and `naLoop` exactly. -/
def naPics {C : Codec} (v : Nat) :
    Nat → RB C → Nat → List (DPic C) → List (DPic C) × RB C × Bool
  | 0, rb, _, acc => (acc, rb, true)
  | fuel + 1, rb, inCount, arr =>
      let (ok, rb1) := rb.validate (arr.isEmpty && decide (inCount < 2147483648))
      if !ok then (arr, rb1, false)
      else if inCount = 0 then (arr, rb1, true)
      else naPicsLoop v fuel inCount rb1 arr
  termination_by structural fuel rb n acc => fuel

/-- The item loop of the sub-picture `new_array_from_buffer`. -/
def naPicsLoop {C : Codec} (v : Nat) :
    Nat → Nat → RB C → List (DPic C) → List (DPic C) × RB C × Bool
  | 0, _, rb, acc => (acc, rb, true)
  | _ + 1, 0, rb, acc => (acc, rb, true)
  | fuel + 1, n + 1, rb, acc =>
      let (o, rb1) := picFromBuffer v fuel rb
      match o with
      | none =>
          let (_, rb2) := rb1.validate false
          ([], rb2, false)
      | some x =>
          let (ok, rb2) := rb1.validate true
          if ok then naPicsLoop v fuel n rb2 (acc ++ [x])
          else ([], rb2, false)
  termination_by structural fuel n rb acc => fuel

/-- Modelled from the spec: `SkPicturePriv::MakeFromBuffer` (outside the
sources) — a nested picture read from the same structured buffer by the
buffer-variant decoder, null on failure. -/
def picFromBuffer {C : Codec} (v : Nat) : Nat → RB C → Option (DPic C) × RB C
  | 0, rb => (none, rb)
  | fuel + 1, rb =>
      match parseBufferLoop v fuel (emptySt C) rb with
      | (some st, rb1) => (some (stToDPic st), rb1)
      | (none, rb1) => (none, rb1)
  termination_by structural fuel rb => fuel

/-- `SkPictureData::parseBuffer` (source lines 500-516): while the buffer
is valid, read a tag, stop on `EOF_TAG`, otherwise read a size and
dispatch; afterwards the archive is valid only if `opData` was built. -/
def parseBufferLoop {C : Codec} (v : Nat) :
    Nat → DecSt C → RB C → Option (DecSt C) × RB C
  | 0, _, rb => (none, rb)
  | fuel + 1, st, rb =>
      if rb.valid then
        let (tag, rb1) := rb.readUInt
        if tag = SK_PICT_EOF_TAG then
          let (ok, rb2) := rb1.validate st.opData.isSome
          if ok then (some st, rb2) else (none, rb2)
        else
          let (size, rb2) := rb1.readUInt
          let (st1, rb3) := parseBufferTag v fuel st rb2 tag size
          parseBufferLoop v fuel st1 rb3
      else
        let (ok, rb1) := rb.validate st.opData.isSome
        if ok then (some st, rb1) else (none, rb1)
  termination_by structural fuel st rb => fuel

end

/-- `SkPictureData::CreateFromBuffer` (source lines 470-479): install the
info's version into the buffer, parse, and return the picture or null. -/
def createFromBuffer {C : Codec} (v : Nat) (fuel : Nat) (rb : RB C) :
    Option (DPic C) × RB C :=
  match parseBufferLoop v fuel (emptySt C) { rb with version := v } with
  | (some st, rb1) => (some (stToDPic st), rb1)
  | (none, rb1) => (none, rb1)

mutual
/-- Fuel sufficient to decode this picture's own serialization. -/
def picFuel {C : Codec} : Pic C → Nat
  | .mk _ _ _ _ _ _ _ ps => 20 + picFuelList ps

/-- Fuel sufficient for a serialized sub-picture list. -/
def picFuelList {C : Codec} : List (Pic C) → Nat
  | [] => 0
  | p :: ps => picFuel p + 2 + picFuelList ps
end

mutual
/-- The picture with every drawable array emptied, at every level: the
stream serializer (`SkPictureData::serialize` via `flattenToBuffer`) never
writes a drawable section, so this is what its output can reconstruct. -/
def dropDraws {C : Codec} : Pic C → Pic C
  | .mk o pa pt bl vt im _ ps => .mk o pa pt bl vt im [] (dropDrawsList ps)

/-- Pointwise `dropDraws`. -/
def dropDrawsList {C : Codec} : List (Pic C) → List (Pic C)
  | [] => []
  | p :: ps => dropDraws p :: dropDrawsList ps
end

mutual
/-- Well-formed resources: every count fits the 32-bit (or, where the
decoder validates an `int`, 31-bit) fields the wire format stores it in,
every length-prefixed payload length fits 32 bits, and the same holds
recursively for the sub-pictures. -/
def WFb {C : Codec} : Pic C → Bool
  | .mk o pa pt bl vt im dr ps =>
      let P : Pic C := .mk o pa pt bl vt im dr ps
      decide (o.length < 4294967296) &&
      decide (pa.length < 2147483648) &&
      decide (pt.length < 2147483648) &&
      decide (bl.length < 2147483648) &&
      decide (vt.length < 2147483648) &&
      decide (im.length < 2147483648) &&
      decide (ps.length < 4294967296) &&
      decide ((bufBytes C P).length < 4294967296) &&
      decide (chunkSize C (flatFacs C P []) < 4294967296) &&
      decide ((flatFacs C P []).length < 4294967296) &&
      (flatFacs C P []).all (fun f =>
        match C.facName f with
        | none => true
        | some nm => decide (nm.length < 4294967296)) &&
      decide ((topTfList C P).length < 4294967296) &&
      vt.all (fun x => decide ((C.encVert x).length < 4294967296)) &&
      WFbList ps

/-- `WFb` across a sub-picture list. -/
def WFbList {C : Codec} : List (Pic C) → Bool
  | [] => true
  | p :: ps => WFb p && WFbList ps
end

/-- A trivial codec instantiation used to evaluate the codec on concrete
inputs: every resource kind is `Unit` with an empty encoding. -/
def UC : Codec where
  Paint := Unit
  Path := Unit
  Blob := Unit
  Vert := Unit
  Image := Unit
  Drawable := Unit
  Tf := Unit
  Fac := Unit
  encPaint := fun _ => []
  encPath := fun _ => []
  encBlob := fun _ => []
  encVert := fun _ => []
  encImage := fun _ => []
  tfEnc := fun _ => []
  paintFacs := fun _ => []
  paintTfs := fun _ => []
  blobTfs := fun _ => []
  facSame := fun _ _ => true
  tfSame := fun _ _ => true
  facName := fun _ => none
  nameToFac := fun _ => none
  decPaint := fun l _ _ => some ((), l)
  decPath := fun l => some ((), l)
  decBlob := fun l _ _ => some ((), l)
  decVertPayload := fun _ => some ()
  decImage := fun l _ _ => some ((), l)
  decDraw := fun l _ _ => some ((), l)
  tfDec := fun s => (some (), s)
  tfDefault := ()
  paintDefault := ()
  pathDefault := ()

/-- The empty picture: empty opcode blob, no resources, no sub-pictures. -/
def emptyPic : Pic UC := .mk [] [] [] [] [] [] [] []

/-- A picture that is empty except for a single drawable. -/
def oneDrawPic : Pic UC := .mk [] [] [] [] [] [] [()] []

/-- A codec instantiation whose typefaces are numbers (serialized as their
32-bit word) and whose decoded paints record the typeface playback table
that was installed in the read buffer, making the `BUFFER_SIZE` handler's
table choice observable in the decode result. -/
def CT : Codec where
  Paint := List Nat
  Path := Unit
  Blob := Unit
  Vert := Unit
  Image := Unit
  Drawable := Unit
  Tf := Nat
  Fac := Unit
  encPaint := fun _ => [0, 0, 0, 0]
  encPath := fun _ => []
  encBlob := fun _ => []
  encVert := fun _ => []
  encImage := fun _ => []
  tfEnc := fun t => u32Bytes t
  paintFacs := fun _ => []
  paintTfs := fun _ => []
  blobTfs := fun _ => []
  facSame := fun _ _ => true
  tfSame := fun t u => t == u
  facName := fun _ => none
  nameToFac := fun _ => none
  decPaint := fun l _ tpb =>
    match l with
    | _ :: _ :: _ :: _ :: r => some (tpb, r)
    | _ => none
  decPath := fun l => some ((), l)
  decBlob := fun l _ _ => some ((), l)
  decVertPayload := fun _ => some ()
  decImage := fun l _ _ => some ((), l)
  decDraw := fun l _ _ => some ((), l)
  tfDec := fun s =>
    match readU32 s with
    | some (w, r) => (some w, r)
    | none => (none, s)
  tfDefault := 0
  paintDefault := []
  pathDefault := ()

/-- A version-50 stream whose archive carries its own one-entry typeface
section (typeface 7) ahead of a buffer holding a single paint. -/
def c3Bytes : List Nat :=
  tagSizeBytes SK_PICT_FACTORY_TAG 4 ++ u32Bytes 0 ++
  tagSizeBytes SK_PICT_TYPEFACE_TAG 1 ++ u32Bytes 7 ++
  tagSizeBytes SK_PICT_BUFFER_SIZE_TAG 12 ++
    (tagSizeBytes SK_PICT_PAINT_BUFFER_TAG 1 ++ [0, 0, 0, 0]) ++
  u32Bytes SK_PICT_EOF_TAG

/-- A concrete valid read buffer over no bytes, for evaluating buffer-side
operations. -/
def uRB : RB UC :=
  { rem := [], valid := true, version := 0, factPB := [], tfPB := [] }

/-- A top-level playback holding the single typeface 9, as a sub-picture
decode would receive from its enclosing archive. -/
def c3Top : TopPtr CT := .tbl ([9] : List Nat)

/-- What decoding `c3Bytes` actually produces: the lone paint records the
typeface table that was installed in the read buffer — the archive's own
table holding typeface 7, not the top-level table holding typeface 9. -/
def c3Result : DPic CT := .mk none ([[7]] : List (List Nat)) [] [] [] [] [] []

/-- A concrete read buffer over an archive holding only a `READER` section
and the EOF word. -/
def uRBReader : RB UC :=
  { rem := tagSizeBytes SK_PICT_READER_TAG 0 ++ u32Bytes 0 ++ u32Bytes SK_PICT_EOF_TAG,
    valid := true, version := 0, factPB := [], tfPB := [] }

/-- The decoder state after parsing `uRBReader`: a zero-length opcode blob
and nothing else. -/
def uStOp : DecSt UC :=
  { opData := some [], paints := [], paths := [], blobs := [], verts := [],
    images := [], draws := [], pics := [], factPB := none, tfPB := [] }

/-- The round-trip contract of the black-box flattenables (the "modulo each
flattenable's own round-trip" of the spec): each kind's decoder undoes its
encoder, consuming exactly the encoded bytes, for any playback tables. -/
structure Laws (C : Codec) : Prop where
  paint : ∀ (p : C.Paint) (r : List Nat) (fpb : List (Option C.Fac)) (tpb : List C.Tf),
    C.decPaint (C.encPaint p ++ r) fpb tpb = some (p, r)
  path : ∀ (p : C.Path) (r : List Nat), C.decPath (C.encPath p ++ r) = some (p, r)
  blob : ∀ (b : C.Blob) (r : List Nat) (fpb : List (Option C.Fac)) (tpb : List C.Tf),
    C.decBlob (C.encBlob b ++ r) fpb tpb = some (b, r)
  vert : ∀ x : C.Vert, C.decVertPayload (C.encVert x) = some x
  image : ∀ (i : C.Image) (r : List Nat) (fpb : List (Option C.Fac)) (tpb : List C.Tf),
    C.decImage (C.encImage i ++ r) fpb tpb = some (i, r)
  tf : ∀ (t : C.Tf) (r : List Nat), C.tfDec (C.tfEnc t ++ r) = (some t, r)

/-- A sub-picture carrying one paint. -/
def rtSubPic : Pic UC := .mk [9] [()] [] [] [] [] [] []

/-- A picture exercising every serialized resource kind and a sub-picture. -/
def rtPic : Pic UC := .mk [1, 2, 3] [(), ()] [()] [()] [()] [()] [] [rtSubPic]

theorem readU32_u32Bytes (w : Nat) (r : List Nat) (h : w < 4294967296) :
    readU32 (u32Bytes w ++ r) = some (w, r) := by
  simp only [u32Bytes, readU32, List.cons_append, List.nil_append]
  congr 1
  congr 1
  omega

theorem readBytes_append (xs r : List Nat) :
    readBytes xs.length (xs ++ r) = some (xs, r) := by
  induction xs with
  | nil => rfl
  | cons a xs ih => simp [readBytes, ih]

end SkiaPictureData

namespace SkiaPictureData

/-- C8: the two tag loops treat unknown tags asymmetrically: an unknown tag
in the outer stream loop makes `parseStreamTag` report success (consuming
nothing, so parsing does not abort there), while an unknown tag inside the
structured buffer makes `parseBufferTag` latch the sticky invalidity flag
via `validate(false)`, after which the archive is rejected by the
`BUFFER_SIZE` handler's final validity check. -/
theorem C8_unknown_tag_asymmetry (C : Codec) (v fuel size : Nat) (st : DecSt C)
    (s : List Nat) (top : TopPtr C) (rb : RB C) (tagO tagI : Nat)
    (hO1 : tagO ≠ SK_PICT_READER_TAG) (hO2 : tagO ≠ SK_PICT_FACTORY_TAG)
    (hO3 : tagO ≠ SK_PICT_TYPEFACE_TAG) (hO4 : tagO ≠ SK_PICT_PICTURE_TAG)
    (hO5 : tagO ≠ SK_PICT_BUFFER_SIZE_TAG)
    (hI1 : tagI ≠ SK_PICT_PAINT_BUFFER_TAG) (hI2 : tagI ≠ SK_PICT_PATH_BUFFER_TAG)
    (hI3 : tagI ≠ SK_PICT_TEXTBLOB_BUFFER_TAG) (hI4 : tagI ≠ SK_PICT_VERTICES_BUFFER_TAG)
    (hI5 : tagI ≠ SK_PICT_IMAGE_BUFFER_TAG) (hI6 : tagI ≠ SK_PICT_READER_TAG)
    (hI7 : tagI ≠ SK_PICT_PICTURE_TAG) (hI8 : tagI ≠ SK_PICT_DRAWABLE_TAG) :
    parseStreamTag v (fuel + 1) st s tagO size top = .ok (st, s) ∧
    (parseBufferTag v (fuel + 1) st rb tagI size).2.valid = false := by
  constructor
  · simp [parseStreamTag, hO1, hO2, hO3, hO4, hO5]
  · simp [parseBufferTag, hI1, hI2, hI3, hI4, hI5, hI6, hI7, hI8, RB.validate]

/-- Witness for C8 at tag 1, which is none of the known section tags. -/
theorem C8_unknown_tag_asymmetry_witness :
    parseStreamTag (C := UC) 0 1 (emptySt UC) [] 1 0 .null = .ok (emptySt UC, []) ∧
    (parseBufferTag (C := UC) 0 1 (emptySt UC) uRB 1 0).2.valid = false :=
  C8_unknown_tag_asymmetry UC 0 0 0 (emptySt UC) [] .null uRB 1 1
    (by decide) (by decide) (by decide) (by decide) (by decide)
    (by decide) (by decide) (by decide) (by decide) (by decide)
    (by decide) (by decide) (by decide)

/-- C9: when the outer loop meets an unknown tag, the eight bytes of the
tag and size words are consumed but none of the size-declared payload is:
the loop state after the section equals the loop started directly on the
payload bytes, so the first payload word is read as the next tag. -/
theorem C9_unknown_tag_skips_no_payload (C : Codec) (v f tag size : Nat)
    (st : DecSt C) (rest : List Nat) (top : TopPtr C)
    (ht : tag < 4294967296) (hs : size < 4294967296)
    (h0 : tag ≠ SK_PICT_EOF_TAG)
    (h1 : tag ≠ SK_PICT_READER_TAG) (h2 : tag ≠ SK_PICT_FACTORY_TAG)
    (h3 : tag ≠ SK_PICT_TYPEFACE_TAG) (h4 : tag ≠ SK_PICT_PICTURE_TAG)
    (h5 : tag ≠ SK_PICT_BUFFER_SIZE_TAG) :
    parseLoop v (f + 2) st (u32Bytes tag ++ u32Bytes size ++ rest) top =
      parseLoop v (f + 1) st rest top := by
  have e1 : readU32 (u32Bytes tag ++ (u32Bytes size ++ rest)) =
      some (tag, u32Bytes size ++ rest) := readU32_u32Bytes _ _ ht
  have e2 : readU32 (u32Bytes size ++ rest) = some (size, rest) :=
    readU32_u32Bytes _ _ hs
  rw [List.append_assoc]
  conv_lhs => rw [parseLoop]
  simp [e1, e2, h0, parseStreamTag, h1, h2, h3, h4, h5]

/-- Witness for C9: an unknown tag 1 claiming a 99-byte payload, followed
directly by the EOF word, which the resumed loop indeed reads as the next
tag. -/
theorem C9_unknown_tag_skips_no_payload_witness :
    parseLoop (C := UC) 0 3 (emptySt UC)
        (u32Bytes 1 ++ u32Bytes 99 ++ u32Bytes SK_PICT_EOF_TAG) .null =
      parseLoop (C := UC) 0 2 (emptySt UC) (u32Bytes SK_PICT_EOF_TAG) .null :=
  C9_unknown_tag_skips_no_payload UC 0 1 1 99 (emptySt UC)
    (u32Bytes SK_PICT_EOF_TAG) .null (by decide) (by decide) (by decide)
    (by decide) (by decide) (by decide) (by decide) (by decide)

end SkiaPictureData

namespace SkiaPictureData

/-- The paint loop never touches the factory playback field. -/
theorem readPaints_factPB (C : Codec) (n : Nat) (st : DecSt C) (rb : RB C) :
    (readPaints C n st rb).1.factPB = st.factPB := by
  induction n generalizing st rb with
  | zero => rfl
  | succ m ih =>
    rw [readPaints]
    cases h : decPaintRB C rb with
    | mk o rb1 => cases o <;> simp [ih]

/-- The path loop never touches the factory playback field. -/
theorem readPaths_factPB (C : Codec) (n : Nat) (st : DecSt C) (rb : RB C) :
    (readPaths C n st rb).1.factPB = st.factPB := by
  induction n generalizing st rb with
  | zero => rfl
  | succ m ih =>
    rw [readPaths]
    cases h : decPathRB C rb with
    | mk o rb1 => cases o <;> simp [ih]

/-- No inner-buffer handler touches the factory playback field. -/
theorem parseBufferTag_factPB (C : Codec) (v fuel tag size : Nat)
    (st : DecSt C) (rb : RB C) :
    (parseBufferTag v fuel st rb tag size).1.factPB = st.factPB := by
  cases fuel with
  | zero => simp [parseBufferTag]
  | succ f =>
    rw [parseBufferTag]
    repeat' split
    all_goals (first
      | rfl
      | exact readPaints_factPB C size st _
      | exact readPaths_factPB C _ st _)

/-- The inner buffer loop never touches the factory playback field. -/
theorem innerLoop_factPB (C : Codec) (v fuel : Nat) (st : DecSt C) (rb : RB C) :
    (innerLoop v fuel st rb).1.factPB = st.factPB := by
  induction fuel generalizing st rb with
  | zero => simp [innerLoop]
  | succ f ih =>
    rw [innerLoop]
    split
    · rfl
    · rw [ih, parseBufferTag_factPB]

end SkiaPictureData

namespace SkiaPictureData

/-- Every outer-tag handler except the `FACTORY` one leaves the factory
playback exactly as it found it. -/
theorem parseStreamTag_factPB (C : Codec) (v fuel size : Nat) (st st2 : DecSt C)
    (s s2 : List Nat) (tag : Nat) (top : TopPtr C)
    (hne : tag ≠ SK_PICT_FACTORY_TAG)
    (hok : parseStreamTag v fuel st s tag size top = .ok (st2, s2)) :
    st2.factPB = st.factPB := by
  cases fuel with
  | zero => simp [parseStreamTag] at hok
  | succ f =>
    rw [parseStreamTag] at hok
    by_cases h1 : tag = SK_PICT_READER_TAG
    · rw [if_pos h1] at hok
      cases hr : readBytes size s with
      | none => simp [hr] at hok
      | some x =>
        obtain ⟨bs, s1⟩ := x
        simp only [hr] at hok
        simp at hok
        rw [← hok.1]
    · rw [if_neg h1, if_neg hne] at hok
      by_cases h3 : tag = SK_PICT_TYPEFACE_TAG
      · rw [if_pos h3] at hok
        cases hts : readTfs C size s with
        | mk ts s1 =>
          simp only [hts] at hok
          simp at hok
          rw [← hok.1]
      · rw [if_neg h3] at hok
        by_cases h4 : tag = SK_PICT_PICTURE_TAG
        · rw [if_pos h4] at hok
          cases hp : readPics v f size s (resolveChild st top) with
          | ok x => simp only [hp] at hok; simp at hok; rw [← hok.1]
          | fail => simp only [hp] at hok; exact PRes.noConfusion hok
          | crash => simp only [hp] at hok; exact PRes.noConfusion hok
        · rw [if_neg h4] at hok
          by_cases h5 : tag = SK_PICT_BUFFER_SIZE_TAG
          · rw [if_pos h5] at hok
            cases hr : readBytes size s with
            | none => simp [hr] at hok
            | some x =>
              obtain ⟨storage, s1⟩ := x
              simp only [hr] at hok
              cases hf : st.factPB with
              | none => simp [hf] at hok
              | some fpb =>
                simp only [hf] at hok
                cases hc : chooseTfTable st top with
                | none => simp [hc] at hok
                | some tt =>
                  simp only [hc] at hok
                  cases hil : innerLoop v f st
                      { rem := storage, valid := true, version := v,
                        factPB := fpb, tfPB := tt } with
                  | mk a b =>
                    simp only [hil] at hok
                    split at hok
                    · simp at hok
                      have hfp := innerLoop_factPB C v f st
                        { rem := storage, valid := true, version := v,
                          factPB := fpb, tfPB := tt }
                      rw [hil] at hfp
                      simp at hfp
                      rw [← hok.1, hfp]
                      exact hf
                    · simp at hok
          · rw [if_neg h5] at hok
            simp at hok
            rw [← hok.1]

end SkiaPictureData

namespace SkiaPictureData

/-- C7: a `BUFFER_SIZE` section not preceded by a `FACTORY` section fails
the decode.  A fresh archive has no factory playback; every handler other
than the `FACTORY` one preserves that absence; and the `BUFFER_SIZE`
handler reports failure whenever no factory playback has been constructed,
which `parseStream` and `CreateFromStream` turn into a null picture. -/
theorem C7_buffer_size_requires_factory (C : Codec) (v fuel size : Nat)
    (s : List Nat) (top : TopPtr C) :
    (emptySt C).factPB = none ∧
    (∀ (st st2 : DecSt C) (tag : Nat) (s2 : List Nat),
      tag ≠ SK_PICT_FACTORY_TAG →
      parseStreamTag v fuel st s tag size top = .ok (st2, s2) →
      st.factPB = none → st2.factPB = none) ∧
    (∀ st : DecSt C, st.factPB = none →
      parseStreamTag v fuel st s SK_PICT_BUFFER_SIZE_TAG size top = .fail) := by
  refine ⟨rfl, ?_, ?_⟩
  · intro st st2 tag s2 hne hok hnone
    rw [parseStreamTag_factPB C v fuel size st st2 s s2 tag top hne hok]
    exact hnone
  · intro st hnone
    cases fuel with
    | zero => simp [parseStreamTag]
    | succ f =>
      rw [parseStreamTag]
      rw [if_neg (by decide), if_neg (by decide), if_neg (by decide),
        if_neg (by decide), if_pos rfl]
      cases hr : readBytes size s with
      | none => simp [hr]
      | some x =>
        obtain ⟨storage, s1⟩ := x
        simp [hr, hnone]

/-- Witness for C7: on a fresh archive the `BUFFER_SIZE` handler fails. -/
theorem C7_buffer_size_requires_factory_witness :
    parseStreamTag (C := UC) 0 1 (emptySt UC) [] SK_PICT_BUFFER_SIZE_TAG 0 .null =
      .fail :=
  (C7_buffer_size_requires_factory UC 0 1 0 [] .null).2.2 (emptySt UC) rfl

/-- The typeface table read by the `TYPEFACE` handler has exactly `count`
entries. -/
theorem readTfs_length (C : Codec) : ∀ (n : Nat) (s : List Nat),
    (readTfs C n s).1.length = n := by
  intro n
  induction n with
  | zero => intro s; rfl
  | succ m ih =>
    intro s
    rw [readTfs]
    cases ht : C.tfDec s with
    | mk ot s1 => simp [ih]

/-- The typeface table is the raw decode results with every failure
replaced by the default typeface, and both loops read the same bytes. -/
theorem readTfs_raw (C : Codec) : ∀ (n : Nat) (s : List Nat),
    (readTfs C n s).1 =
      (readTfsRaw C n s).1.map (fun o => o.getD C.tfDefault) ∧
    (readTfsRaw C n s).2 = (readTfs C n s).2 := by
  intro n
  induction n with
  | zero => intro s; exact ⟨rfl, rfl⟩
  | succ m ih =>
    intro s
    rw [readTfs, readTfsRaw]
    cases ht : C.tfDec s with
    | mk ot s1 =>
      obtain ⟨e1, e2⟩ := ih s1
      cases ot <;> simp [e1, e2]

/-- C6: typeface decode failure is non-fatal.  The `TYPEFACE` handler
always succeeds, changes nothing but the typeface playback, reads exactly
`size` entries, and the table it builds is the raw decode results with
every failed entry replaced by the process-default typeface — so the table
never holds a missing entry. -/
theorem C6_typeface_default_substitution (C : Codec) (v fuel size : Nat)
    (st : DecSt C) (s : List Nat) (top : TopPtr C) :
    parseStreamTag v (fuel + 1) st s SK_PICT_TYPEFACE_TAG size top =
      .ok ({ st with tfPB := (readTfs C size s).1 }, (readTfs C size s).2) ∧
    (readTfs C size s).1.length = size ∧
    (readTfs C size s).1 =
      (readTfsRaw C size s).1.map (fun o => o.getD C.tfDefault) ∧
    (readTfsRaw C size s).2 = (readTfs C size s).2 := by
  refine ⟨?_, readTfs_length C size s, (readTfs_raw C size s).1, (readTfs_raw C size s).2⟩
  rw [parseStreamTag]
  rw [if_neg (by decide), if_neg (by decide), if_pos rfl]

end SkiaPictureData

namespace SkiaPictureData

/-- Dichotomy for the `new_array_from_buffer` item loop: either every item
decoded and the accumulator grew by `n`, or the array was reset to empty
and the buffer latched invalid. -/
theorem naLoop_spec {C : Codec} {α : Type} (fac : RB C → Option α × RB C) :
    ∀ (n : Nat) (rb : RB C) (acc : List α), rb.valid = true →
    ((naLoop fac n rb acc).2.2 = true ∧ (naLoop fac n rb acc).2.1.valid = true ∧
      (naLoop fac n rb acc).1.length = acc.length + n) ∨
    ((naLoop fac n rb acc).2.2 = false ∧ (naLoop fac n rb acc).1 = [] ∧
      (naLoop fac n rb acc).2.1.valid = false) := by
  intro n
  induction n with
  | zero =>
    intro rb acc h
    left
    exact ⟨rfl, h, rfl⟩
  | succ m ih =>
    intro rb acc h
    rw [naLoop]
    cases hf : fac rb with
    | mk o rb1 =>
      cases o with
      | none =>
        right
        simp [RB.validate]
      | some x =>
        cases hv : rb1.valid with
        | true =>
          have hrec := ih { rb1 with valid := true } (acc ++ [x]) rfl
          rcases hrec with ⟨a1, a2, a3⟩ | ⟨a1, a2, a3⟩
          · left
            refine ⟨?_, ?_, ?_⟩ <;>
              simp [RB.validate, hv, a1, a2, a3, List.length_append] <;> omega
          · right
            refine ⟨?_, ?_, ?_⟩ <;>
              simp [RB.validate, hv, a1, a2, a3]
        | false =>
          right
          simp [RB.validate, hv]

end SkiaPictureData

namespace SkiaPictureData

/-- Dichotomy for `new_array_from_buffer` on an empty destination with a
count that fits in an int: full success with `n` items, or reset to empty
with invalidity latched. -/
theorem newArrayFromBuffer_spec {C : Codec} {α : Type} (fac : RB C → Option α × RB C)
    (rb : RB C) (n : Nat) (hval : rb.valid = true) (hn : n < 2147483648) :
    ((newArrayFromBuffer fac rb n []).2.2 = true ∧
      (newArrayFromBuffer fac rb n []).2.1.valid = true ∧
      (newArrayFromBuffer fac rb n []).1.length = n) ∨
    ((newArrayFromBuffer fac rb n []).2.2 = false ∧
      (newArrayFromBuffer fac rb n []).1 = [] ∧
      (newArrayFromBuffer fac rb n []).2.1.valid = false) := by
  rw [newArrayFromBuffer]
  by_cases hz : n = 0
  · subst hz
    left
    simp [RB.validate, hval]
  · have hrec := naLoop_spec fac n { rb with valid := true } [] rfl
    rcases hrec with ⟨a1, a2, a3⟩ | ⟨a1, a2, a3⟩
    · left
      refine ⟨?_, ?_, ?_⟩ <;>
        simp [RB.validate, hval, hn, hz, a1, a2, a3]
    · right
      refine ⟨?_, ?_, ?_⟩ <;>
        simp [RB.validate, hval, hn, hz, a1, a2, a3]

end SkiaPictureData

namespace SkiaPictureData

/-- C5: for the four factory-decoded inner sections — text blobs, vertices,
images, drawables — reading `size` items is all-or-nothing: either every
item decodes and the destination array holds exactly `size` items with the
buffer still valid, or the destination array is left empty and the sticky
invalidity flag is latched. -/
theorem C5_inner_sections_all_or_nothing (C : Codec) (v fuel size : Nat)
    (st : DecSt C) (rb : RB C)
    (hval : rb.valid = true) (hsize : size < 2147483648)
    (hb : st.blobs = []) (hv : st.verts = []) (hi : st.images = [])
    (hd : st.draws = []) :
    (((parseBufferTag v (fuel + 1) st rb SK_PICT_TEXTBLOB_BUFFER_TAG size).2.valid = true ∧
        (parseBufferTag v (fuel + 1) st rb SK_PICT_TEXTBLOB_BUFFER_TAG size).1.blobs.length = size) ∨
      ((parseBufferTag v (fuel + 1) st rb SK_PICT_TEXTBLOB_BUFFER_TAG size).1.blobs = [] ∧
        (parseBufferTag v (fuel + 1) st rb SK_PICT_TEXTBLOB_BUFFER_TAG size).2.valid = false)) ∧
    (((parseBufferTag v (fuel + 1) st rb SK_PICT_VERTICES_BUFFER_TAG size).2.valid = true ∧
        (parseBufferTag v (fuel + 1) st rb SK_PICT_VERTICES_BUFFER_TAG size).1.verts.length = size) ∨
      ((parseBufferTag v (fuel + 1) st rb SK_PICT_VERTICES_BUFFER_TAG size).1.verts = [] ∧
        (parseBufferTag v (fuel + 1) st rb SK_PICT_VERTICES_BUFFER_TAG size).2.valid = false)) ∧
    (((parseBufferTag v (fuel + 1) st rb SK_PICT_IMAGE_BUFFER_TAG size).2.valid = true ∧
        (parseBufferTag v (fuel + 1) st rb SK_PICT_IMAGE_BUFFER_TAG size).1.images.length = size) ∨
      ((parseBufferTag v (fuel + 1) st rb SK_PICT_IMAGE_BUFFER_TAG size).1.images = [] ∧
        (parseBufferTag v (fuel + 1) st rb SK_PICT_IMAGE_BUFFER_TAG size).2.valid = false)) ∧
    (((parseBufferTag v (fuel + 1) st rb SK_PICT_DRAWABLE_TAG size).2.valid = true ∧
        (parseBufferTag v (fuel + 1) st rb SK_PICT_DRAWABLE_TAG size).1.draws.length = size) ∨
      ((parseBufferTag v (fuel + 1) st rb SK_PICT_DRAWABLE_TAG size).1.draws = [] ∧
        (parseBufferTag v (fuel + 1) st rb SK_PICT_DRAWABLE_TAG size).2.valid = false)) := by
  refine ⟨?_, ?_, ?_, ?_⟩
  · rw [parseBufferTag, if_neg (by decide), if_neg (by decide), if_pos rfl, hb]
    rcases newArrayFromBuffer_spec (blobFromBuffer C) rb size hval hsize with
      ⟨a1, a2, a3⟩ | ⟨a1, a2, a3⟩
    · left
      rcases hna : newArrayFromBuffer (blobFromBuffer C) rb size [] with ⟨arr, rb1, ok⟩
      rw [hna] at a2 a3
      simp only [hna]
      exact ⟨a2, a3⟩
    · right
      rcases hna : newArrayFromBuffer (blobFromBuffer C) rb size [] with ⟨arr, rb1, ok⟩
      rw [hna] at a2 a3
      simp only [hna]
      exact ⟨a2, a3⟩
  · rw [parseBufferTag, if_neg (by decide), if_neg (by decide), if_neg (by decide),
      if_pos rfl, hv]
    rcases newArrayFromBuffer_spec (vertFromBuffer C) rb size hval hsize with
      ⟨a1, a2, a3⟩ | ⟨a1, a2, a3⟩
    · left
      rcases hna : newArrayFromBuffer (vertFromBuffer C) rb size [] with ⟨arr, rb1, ok⟩
      rw [hna] at a2 a3
      simp only [hna]
      exact ⟨a2, a3⟩
    · right
      rcases hna : newArrayFromBuffer (vertFromBuffer C) rb size [] with ⟨arr, rb1, ok⟩
      rw [hna] at a2 a3
      simp only [hna]
      exact ⟨a2, a3⟩
  · rw [parseBufferTag, if_neg (by decide), if_neg (by decide), if_neg (by decide),
      if_neg (by decide), if_pos rfl, hi]
    rcases newArrayFromBuffer_spec (imageFromBuffer C) rb size hval hsize with
      ⟨a1, a2, a3⟩ | ⟨a1, a2, a3⟩
    · left
      rcases hna : newArrayFromBuffer (imageFromBuffer C) rb size [] with ⟨arr, rb1, ok⟩
      rw [hna] at a2 a3
      simp only [hna]
      exact ⟨a2, a3⟩
    · right
      rcases hna : newArrayFromBuffer (imageFromBuffer C) rb size [] with ⟨arr, rb1, ok⟩
      rw [hna] at a2 a3
      simp only [hna]
      exact ⟨a2, a3⟩
  · rw [parseBufferTag, if_neg (by decide), if_neg (by decide), if_neg (by decide),
      if_neg (by decide), if_neg (by decide), if_neg (by decide), if_neg (by decide),
      if_pos rfl, hd]
    rcases newArrayFromBuffer_spec (drawFromBuffer C) rb size hval hsize with
      ⟨a1, a2, a3⟩ | ⟨a1, a2, a3⟩
    · left
      rcases hna : newArrayFromBuffer (drawFromBuffer C) rb size [] with ⟨arr, rb1, ok⟩
      rw [hna] at a2 a3
      simp only [hna]
      exact ⟨a2, a3⟩
    · right
      rcases hna : newArrayFromBuffer (drawFromBuffer C) rb size [] with ⟨arr, rb1, ok⟩
      rw [hna] at a2 a3
      simp only [hna]
      exact ⟨a2, a3⟩

/-- Witness for C5 at a one-item count on a valid empty buffer. -/
theorem C5_inner_sections_all_or_nothing_witness :
    uRB.valid = true ∧ (1 : Nat) < 2147483648 ∧
    (((parseBufferTag (C := UC) 0 1 (emptySt UC) uRB SK_PICT_TEXTBLOB_BUFFER_TAG 1).2.valid = true ∧
        (parseBufferTag (C := UC) 0 1 (emptySt UC) uRB SK_PICT_TEXTBLOB_BUFFER_TAG 1).1.blobs.length = 1) ∨
      ((parseBufferTag (C := UC) 0 1 (emptySt UC) uRB SK_PICT_TEXTBLOB_BUFFER_TAG 1).1.blobs = [] ∧
        (parseBufferTag (C := UC) 0 1 (emptySt UC) uRB SK_PICT_TEXTBLOB_BUFFER_TAG 1).2.valid = false)) :=
  ⟨rfl, by decide,
    (C5_inner_sections_all_or_nothing UC 0 0 1 (emptySt UC) uRB rfl (by decide)
      rfl rfl rfl rfl).1⟩

end SkiaPictureData

namespace SkiaPictureData

/-- The typeface-table choice of the `BUFFER_SIZE` handler only
dereferences a null pointer when the top-level playback pointer is null. -/
theorem chooseTfTable_isSome {C : Codec} (st : DecSt C) (top : TopPtr C)
    (h : top ≠ TopPtr.null) : chooseTfTable st top ≠ none := by
  rw [chooseTfTable.eq_def]
  split
  · simp
  · cases top with
    | null => exact absurd rfl h
    | self => simp
    | tbl t => simp

/-- The pointer handed to sub-picture decodes is never null unless the
current one is. -/
theorem resolveChild_ne_null {C : Codec} (st : DecSt C) (top : TopPtr C)
    (h : top ≠ TopPtr.null) : resolveChild st top ≠ TopPtr.null := by
  cases top with
  | null => exact absurd rfl h
  | self => exact fun hc => TopPtr.noConfusion hc
  | tbl t => exact fun hc => TopPtr.noConfusion hc

/-- No decoding function started from a non-null top-level playback — and
no `CreateFromStream` call at all, thanks to its null substitution — ever
reaches the null dereference. -/
theorem noCrash (C : Codec) (v : Nat) : ∀ fuel : Nat,
    (∀ (st : DecSt C) (s : List Nat) (top : TopPtr C), top ≠ .null →
      parseLoop v fuel st s top ≠ .crash) ∧
    (∀ (st : DecSt C) (s : List Nat) (tag size : Nat) (top : TopPtr C), top ≠ .null →
      parseStreamTag v fuel st s tag size top ≠ .crash) ∧
    (∀ (count : Nat) (s : List Nat) (top : TopPtr C), top ≠ .null →
      readPics v fuel count s top ≠ .crash) ∧
    (∀ (s : List Nat) (top : TopPtr C), createFromStream v fuel s top ≠ .crash) := by
  intro fuel
  induction fuel using Nat.strong_induction_on with
  | _ fuel ih =>
    refine ⟨?_, ?_, ?_, ?_⟩
    · -- parseLoop
      intro st s top h hc
      cases fuel with
      | zero => exact PRes.noConfusion hc
      | succ f =>
        rw [parseLoop] at hc
        cases hr : readU32 s with
        | none => simp only [hr] at hc; exact PRes.noConfusion hc
        | some x =>
          obtain ⟨tag, s1⟩ := x
          simp only [hr] at hc
          by_cases he : tag = SK_PICT_EOF_TAG
          · rw [if_pos he] at hc; exact PRes.noConfusion hc
          · rw [if_neg he] at hc
            cases hr2 : readU32 s1 with
            | none => simp only [hr2] at hc; exact PRes.noConfusion hc
            | some y =>
              obtain ⟨size, s2⟩ := y
              simp only [hr2] at hc
              cases hp : parseStreamTag v f st s2 tag size top with
              | ok z =>
                obtain ⟨st2, s3⟩ := z
                simp only [hp] at hc
                exact (ih f (Nat.lt_succ_self f)).1 st2 s3 top h hc
              | fail => simp only [hp] at hc; exact PRes.noConfusion hc
              | crash =>
                exact (ih f (Nat.lt_succ_self f)).2.1 st s2 tag size top h hp
    · -- parseStreamTag
      intro st s tag size top h hc
      cases fuel with
      | zero => exact PRes.noConfusion hc
      | succ f =>
        rw [parseStreamTag] at hc
        by_cases h1 : tag = SK_PICT_READER_TAG
        · rw [if_pos h1] at hc
          cases hr : readBytes size s with
          | none => simp only [hr] at hc; exact PRes.noConfusion hc
          | some x =>
            obtain ⟨bs, s1⟩ := x
            simp only [hr] at hc
            exact PRes.noConfusion hc
        · rw [if_neg h1] at hc
          by_cases h2 : tag = SK_PICT_FACTORY_TAG
          · rw [if_pos h2] at hc
            cases hr : readU32 s with
            | none => simp only [hr] at hc; exact PRes.noConfusion hc
            | some x =>
              obtain ⟨count, s1⟩ := x
              simp only [hr] at hc
              cases hf : readFacs C count s1 with
              | none => simp only [hf] at hc; exact PRes.noConfusion hc
              | some y =>
                obtain ⟨fs, s2⟩ := y
                simp only [hf] at hc
                exact PRes.noConfusion hc
          · rw [if_neg h2] at hc
            by_cases h3 : tag = SK_PICT_TYPEFACE_TAG
            · rw [if_pos h3] at hc
              cases ht : readTfs C size s with
              | mk ts s1 =>
                simp only [ht] at hc
                exact PRes.noConfusion hc
            · rw [if_neg h3] at hc
              by_cases h4 : tag = SK_PICT_PICTURE_TAG
              · rw [if_pos h4] at hc
                cases hp : readPics v f size s (resolveChild st top) with
                | ok x =>
                  obtain ⟨ds, s1⟩ := x
                  simp only [hp] at hc
                  exact PRes.noConfusion hc
                | fail => simp only [hp] at hc; exact PRes.noConfusion hc
                | crash =>
                  exact (ih f (Nat.lt_succ_self f)).2.2.1 size s (resolveChild st top)
                    (resolveChild_ne_null st top h) hp
              · rw [if_neg h4] at hc
                by_cases h5 : tag = SK_PICT_BUFFER_SIZE_TAG
                · rw [if_pos h5] at hc
                  cases hr : readBytes size s with
                  | none => simp only [hr] at hc; exact PRes.noConfusion hc
                  | some x =>
                    obtain ⟨storage, s1⟩ := x
                    simp only [hr] at hc
                    cases hfp : st.factPB with
                    | none => simp only [hfp] at hc; exact PRes.noConfusion hc
                    | some fpb =>
                      simp only [hfp] at hc
                      cases hct : chooseTfTable st top with
                      | none => exact chooseTfTable_isSome st top h hct
                      | some tt =>
                        simp only [hct] at hc
                        cases hil : innerLoop v f st
                            { rem := storage, valid := true, version := v,
                              factPB := fpb, tfPB := tt } with
                        | mk st2 rb2 =>
                          simp only [hil] at hc
                          by_cases hv2 : rb2.valid = true
                          · rw [if_pos hv2] at hc; exact PRes.noConfusion hc
                          · rw [if_neg hv2] at hc; exact PRes.noConfusion hc
                · rw [if_neg h5] at hc
                  exact PRes.noConfusion hc
    · -- readPics
      intro count s top h hc
      cases fuel with
      | zero => exact PRes.noConfusion hc
      | succ f =>
        cases count with
        | zero => rw [readPics] at hc; exact PRes.noConfusion hc
        | succ c =>
          rw [readPics] at hc
          cases hcf : createFromStream v f s top with
          | ok x =>
            obtain ⟨d, s1⟩ := x
            simp only [hcf] at hc
            cases hrp : readPics v f c s1 top with
            | ok y =>
              obtain ⟨ds, s2⟩ := y
              simp only [hrp] at hc
              exact PRes.noConfusion hc
            | fail => simp only [hrp] at hc; exact PRes.noConfusion hc
            | crash => exact (ih f (Nat.lt_succ_self f)).2.2.1 c s1 top h hrp
          | fail => simp only [hcf] at hc; exact PRes.noConfusion hc
          | crash => exact (ih f (Nat.lt_succ_self f)).2.2.2 s top hcf
    · -- createFromStream
      intro s top hc
      cases fuel with
      | zero => exact PRes.noConfusion hc
      | succ f =>
        rw [createFromStream] at hc
        cases top with
        | null =>
          simp only [substTop] at hc
          cases hpl : parseLoop v f (emptySt C) s TopPtr.self with
          | ok x =>
            obtain ⟨st1, s1⟩ := x
            simp only [hpl] at hc
            exact PRes.noConfusion hc
          | fail => simp only [hpl] at hc; exact PRes.noConfusion hc
          | crash =>
            exact (ih f (Nat.lt_succ_self f)).1 (emptySt C) s TopPtr.self
              (fun he => TopPtr.noConfusion he) hpl
        | self =>
          simp only [substTop] at hc
          cases hpl : parseLoop v f (emptySt C) s TopPtr.self with
          | ok x =>
            obtain ⟨st1, s1⟩ := x
            simp only [hpl] at hc
            exact PRes.noConfusion hc
          | fail => simp only [hpl] at hc; exact PRes.noConfusion hc
          | crash =>
            exact (ih f (Nat.lt_succ_self f)).1 (emptySt C) s TopPtr.self
              (fun he => TopPtr.noConfusion he) hpl
        | tbl t =>
          simp only [substTop] at hc
          cases hpl : parseLoop v f (emptySt C) s (TopPtr.tbl t) with
          | ok x =>
            obtain ⟨st1, s1⟩ := x
            simp only [hpl] at hc
            exact PRes.noConfusion hc
          | fail => simp only [hpl] at hc; exact PRes.noConfusion hc
          | crash =>
            exact (ih f (Nat.lt_succ_self f)).1 (emptySt C) s (TopPtr.tbl t)
              (fun he => TopPtr.noConfusion he) hpl

/-- C10: `CreateFromStream` substitutes the archive's own typeface playback
for a null top-level argument before parsing, so decoding behaves exactly
as with the self-aliased pointer and the `BUFFER_SIZE` handler never
dereferences a null top-level playback (no run from a null argument ever
reaches the crash outcome). -/
theorem C10_null_top_substitution (C : Codec) (v fuel : Nat) (s : List Nat) :
    createFromStream v (fuel + 1) s (TopPtr.null : TopPtr C) =
      createFromStream v (fuel + 1) s (TopPtr.self : TopPtr C) ∧
    (∀ f : Nat, createFromStream (C := C) v f s TopPtr.null ≠ PRes.crash) := by
  constructor
  · rw [createFromStream, createFromStream]
    simp only [substTop]
  · intro f
    exact (noCrash C v f).2.2.2 s .null

end SkiaPictureData

namespace SkiaPictureData

/-- The buffer-variant outer loop only reports success when an op-data blob
was assigned: `parseBuffer` ends with `validate(opData != nullptr)`. -/
theorem parseBufferLoop_opData (C : Codec) (v : Nat) :
    ∀ (fuel : Nat) (st st2 : DecSt C) (rb rb2 : RB C),
    parseBufferLoop v fuel st rb = (some st2, rb2) → st2.opData.isSome = true := by
  intro fuel
  induction fuel with
  | zero =>
    intro st st2 rb rb2 h
    simp [parseBufferLoop] at h
  | succ f ih =>
    intro st st2 rb rb2 h
    rw [parseBufferLoop] at h
    by_cases hv : rb.valid = true
    · rw [if_pos hv] at h
      cases hru : rb.readUInt with
      | mk tag rb1 =>
        simp only [hru] at h
        by_cases he : tag = SK_PICT_EOF_TAG
        · rw [if_pos he] at h
          simp only [RB.validate] at h
          cases hb : rb1.valid && st.opData.isSome with
          | false => simp [hb] at h
          | true =>
            rcases (Bool.and_eq_true _ _).mp hb with ⟨_, hso⟩
            simp only [hb] at h
            simp at h
            rw [← h.1]
            exact hso
        · rw [if_neg he] at h
          cases hru2 : rb1.readUInt with
          | mk size rb3 =>
            simp only [hru2] at h
            cases hbt : parseBufferTag v f st rb3 tag size with
            | mk st1 rb4 =>
              simp only [hbt] at h
              exact ih st1 st2 rb4 rb2 h
    · rw [if_neg hv] at h
      simp only [RB.validate] at h
      have hfalse : rb.valid = false := by
        revert hv
        cases rb.valid <;> simp
      simp [hfalse] at h

/-- Counterexample to C2 as stated: the claim says an archive consisting
only of `EOF_TAG` decodes to null through both entry points, but the
stream-based `parseStream` has no op-data check after its loop — it
succeeds, and `CreateFromStream` returns a (non-null) picture whose op data
was never assigned. -/
theorem C2_eof_only_cex :
    createFromStream (C := UC) 0 2 (u32Bytes SK_PICT_EOF_TAG) .null =
      .ok (.mk none [] [] [] [] [] [] [], []) ∧
    (DPic.mk (C := UC) none [] [] [] [] [] [] []).opData = none :=
  ⟨rfl, rfl⟩

/-- C2 amended: the op-data validity condition belongs to the buffer entry
point only.  `parseBuffer` reports success only when op data was assigned,
so an EOF-only archive decodes to null through `CreateFromBuffer`; the
stream entry point performs no such check and returns a picture with
absent op data for the same input. -/
theorem C2_eof_only_amended (C : Codec) (v fuel ver : Nat)
    (fpb : List (Option C.Fac)) (tpb : List C.Tf) :
    (∀ (f : Nat) (st st2 : DecSt C) (rb rb2 : RB C),
      parseBufferLoop v f st rb = (some st2, rb2) → st2.opData.isSome = true) ∧
    (createFromBuffer v (fuel + 1)
        { rem := u32Bytes SK_PICT_EOF_TAG, valid := true, version := ver,
          factPB := fpb, tfPB := tpb }).1 = none ∧
    createFromStream (C := C) v (fuel + 2) (u32Bytes SK_PICT_EOF_TAG) .null =
      .ok (.mk none [] [] [] [] [] [] [], []) :=
  ⟨fun f => parseBufferLoop_opData C v f, rfl, rfl⟩

/-- Witness for C2 amended, applying the op-data necessity at a concrete
buffer that does carry a `READER` section. -/
theorem C2_eof_only_amended_witness : uStOp.opData.isSome = true :=
  (C2_eof_only_amended UC 0 0 0 [] []).1 5 (emptySt UC) uStOp uRBReader uRB rfl

/-- Counterexample to C4 as stated: serializing the empty picture does not
emit the claimed sequence `READER 0, FACTORY 4 0, BUFFER_SIZE 0, EOF`,
because a top-level picture with a local typeface set always emits a
typeface section, even an empty one. -/
theorem C4_empty_picture_cex :
    serBytes false emptyPic ≠
      tagSizeBytes SK_PICT_READER_TAG 0 ++
      tagSizeBytes SK_PICT_FACTORY_TAG 4 ++ u32Bytes 0 ++
      tagSizeBytes SK_PICT_BUFFER_SIZE_TAG 0 ++
      u32Bytes SK_PICT_EOF_TAG := by
  decide

/-- C4 amended: the empty picture serializes to exactly `READER_TAG 0,
FACTORY_TAG 4 0, TYPEFACE_TAG 0, BUFFER_SIZE_TAG 0, EOF_TAG`, and decoding
that output yields a picture with a zero-length opcode blob. -/
theorem C4_empty_picture_amended :
    serBytes false emptyPic =
      tagSizeBytes SK_PICT_READER_TAG 0 ++
      tagSizeBytes SK_PICT_FACTORY_TAG 4 ++ u32Bytes 0 ++
      tagSizeBytes SK_PICT_TYPEFACE_TAG 0 ++
      tagSizeBytes SK_PICT_BUFFER_SIZE_TAG 0 ++
      u32Bytes SK_PICT_EOF_TAG ∧
    createFromStream (C := UC) 0 20 (serBytes false emptyPic) .null =
      .ok (.mk (some []) [] [] [] [] [] [] [], []) :=
  ⟨by decide, rfl⟩

/-- Counterexample to C3 as stated: `c3Bytes` is decoded as a version-50
stream (greater than 43) whose archive carries its own one-entry typeface
section, with a top-level playback holding typeface 9 supplied; the claim
says the top-level table is installed into the buffer, but the decode's
lone paint records the archive's own table holding typeface 7 instead. -/
theorem C3_version_gate_cex :
    createFromStream (C := CT) 50 20 c3Bytes c3Top = .ok (c3Result, []) ∧
    c3Result.paints = [[7]] ∧ ([[7]] : List (List Nat)) ≠ [[9]] :=
  ⟨rfl, rfl, by decide⟩

/-- C3 amended: the `BUFFER_SIZE` handler chooses the typeface table to
install without consulting the stream version: the archive's own playback
wins whenever it is populated, and only otherwise is the table behind the
top-level pointer used (the archive's own again when that pointer aliases
it, a null dereference when it is null).  This coincides with the claim's
version gate only because encoders above version 43 emit no per-sub-picture
typeface sections. -/
theorem C3_tf_choice_amended (C : Codec) (st : DecSt C) (top : TopPtr C) :
    (st.tfPB.length > 0 → chooseTfTable st top = some st.tfPB) ∧
    (st.tfPB.length = 0 →
      chooseTfTable st top =
        match top with
        | TopPtr.null => none
        | TopPtr.self => some st.tfPB
        | TopPtr.tbl t => some t) := by
  constructor
  · intro h
    rw [chooseTfTable.eq_def, if_pos h]
  · intro h
    rw [chooseTfTable.eq_def, if_neg (by omega)]

/-- Witness for C3 amended: a populated own table wins over a supplied
top-level table. -/
theorem C3_tf_choice_amended_witness :
    chooseTfTable (C := CT) { emptySt CT with tfPB := ([5] : List Nat) } c3Top =
      some ([5] : List Nat) :=
  (C3_tf_choice_amended CT { emptySt CT with tfPB := ([5] : List Nat) } c3Top).1
    (by decide)

end SkiaPictureData

namespace SkiaPictureData

/-- Counterexample to C1 as stated: the stream serializer never writes a
drawable section (`flattenToBuffer` covers paints, paths, text blobs,
vertices and images only; drawables are written only by the buffer-variant
`flatten`), so a picture holding one drawable round-trips to a picture
holding none — the drawable array's count is not preserved. -/
theorem C1_round_trip_cex :
    createFromStream (C := UC) 0 20 (serBytes false oneDrawPic) .null =
      .ok (.mk (some []) [] [] [] [] [] [] [], []) ∧
    oneDrawPic.draws = [()] ∧ ([] : List Unit) ≠ [()] :=
  ⟨rfl, rfl, by decide⟩

/-- The packed length encoding round-trips below two to the thirty-two. -/
theorem readPackedUInt_packed (v : Nat) (r : List Nat) (h : v < 4294967296) :
    readPackedUInt (packedUIntBytes v ++ r) = some (v, r) := by
  rw [packedUIntBytes]
  by_cases hv : v < 255
  · rw [if_pos hv]
    simp [readPackedUInt, hv]
  · rw [if_neg hv]
    simp only [List.cons_append, readPackedUInt]
    rw [if_neg (by omega)]
    exact readU32_u32Bytes v r h

/-- A valid read buffer yields the 32-bit word at its cursor. -/
theorem RB.readUInt_u32 {C : Codec} (rb : RB C) (w : Nat) (r : List Nat)
    (hval : rb.valid = true) (hrem : rb.rem = u32Bytes w ++ r)
    (hw : w < 4294967296) :
    rb.readUInt = (w, { rb with rem := r }) := by
  rw [RB.readUInt, if_pos hval, hrem, readU32_u32Bytes w r hw]

/-- The factory-section name loop reads back exactly the written entries,
resolving each through the registry. -/
theorem readFacs_section (C : Codec) :
    ∀ (fs : List C.Fac) (r : List Nat),
    (∀ f ∈ fs, ∀ nm, C.facName f = some nm → nm.length < 4294967296) →
    readFacs C fs.length ((fs.map (facNameBytes C)).flatten ++ r) =
      some (fs.map (fun f => C.nameToFac
        (match C.facName f with | none => [] | some nm => nm)), r) := by
  intro fs
  induction fs with
  | nil => intro r _; rfl
  | cons f fs ih =>
    intro r hlen
    rw [List.map_cons, List.flatten_cons, List.append_assoc, List.length_cons, readFacs]
    cases hn : C.facName f with
    | none =>
      have hb : facNameBytes C f = packedUIntBytes 0 := by
        simp [facNameBytes, hn]
      rw [hb]
      simp only [readPackedUInt_packed 0 _ (by omega : (0 : Nat) < 4294967296),
        readBytes, ih r (fun g hg => hlen g (List.mem_cons_of_mem f hg))]
      simp [hn]
    | some nm =>
      by_cases he : nm.isEmpty
      · have hb : facNameBytes C f = packedUIntBytes 0 := by
          simp [facNameBytes, hn, he]
        rw [hb]
        simp only [readPackedUInt_packed 0 _ (by omega : (0 : Nat) < 4294967296),
          readBytes, ih r (fun g hg => hlen g (List.mem_cons_of_mem f hg))]
        have hnil : nm = [] := List.isEmpty_iff.mp he
        simp [hn, hnil]
      · have hb : facNameBytes C f = packedUIntBytes nm.length ++ nm := by
          simp [facNameBytes, hn, he]
        rw [hb, List.append_assoc]
        simp only [readPackedUInt_packed nm.length _ (hlen f (List.mem_cons_self f fs) nm hn),
          readBytes_append, ih r (fun g hg => hlen g (List.mem_cons_of_mem f hg))]
        simp [hn]

end SkiaPictureData

namespace SkiaPictureData

/-- The typeface-section loop reads back exactly the typefaces written by
`WriteTypefaces`. -/
theorem readTfs_section (C : Codec) (L : Laws C) :
    ∀ (ts : List C.Tf) (r : List Nat),
    readTfs C ts.length ((ts.map C.tfEnc).flatten ++ r) = (ts, r) := by
  intro ts
  induction ts with
  | nil => intro r; rfl
  | cons t ts ih =>
    intro r
    rw [List.map_cons, List.flatten_cons, List.append_assoc, List.length_cons, readTfs]
    simp only [L.tf t ((ts.map C.tfEnc).flatten ++ r), ih r]

/-- `readPaint` undoes `writePaint` on a valid buffer. -/
theorem decPaintRB_enc {C : Codec} (L : Laws C) (p : C.Paint) (r : List Nat)
    (ver : Nat) (fpb : List (Option C.Fac)) (tpb : List C.Tf) :
    decPaintRB C ⟨C.encPaint p ++ r, true, ver, fpb, tpb⟩ =
      (some p, ⟨r, true, ver, fpb, tpb⟩) := by
  rw [decPaintRB]
  simp only [L.paint p r fpb tpb]
  rfl

/-- `readPath` undoes `writePath` on a valid buffer. -/
theorem decPathRB_enc {C : Codec} (L : Laws C) (p : C.Path) (r : List Nat)
    (ver : Nat) (fpb : List (Option C.Fac)) (tpb : List C.Tf) :
    decPathRB C ⟨C.encPath p ++ r, true, ver, fpb, tpb⟩ =
      (some p, ⟨r, true, ver, fpb, tpb⟩) := by
  rw [decPathRB]
  simp only [L.path p r]
  rfl

/-- `SkTextBlob::MakeFromBuffer` undoes `flatten` on a valid buffer. -/
theorem blobFromBuffer_enc {C : Codec} (L : Laws C) (b : C.Blob) (r : List Nat)
    (ver : Nat) (fpb : List (Option C.Fac)) (tpb : List C.Tf) :
    blobFromBuffer C ⟨C.encBlob b ++ r, true, ver, fpb, tpb⟩ =
      (some b, ⟨r, true, ver, fpb, tpb⟩) := by
  rw [blobFromBuffer]
  simp only [L.blob b r fpb tpb]
  rfl

/-- `readImage` undoes `writeImage` on a valid buffer. -/
theorem imageFromBuffer_enc {C : Codec} (L : Laws C) (i : C.Image) (r : List Nat)
    (ver : Nat) (fpb : List (Option C.Fac)) (tpb : List C.Tf) :
    imageFromBuffer C ⟨C.encImage i ++ r, true, ver, fpb, tpb⟩ =
      (some i, ⟨r, true, ver, fpb, tpb⟩) := by
  rw [imageFromBuffer]
  simp only [L.image i r fpb tpb]
  rfl

/-- A length-prefixed padded byte array reads back exactly. -/
theorem readByteArrayAsData_enc {C : Codec} (bs r : List Nat)
    (ver : Nat) (fpb : List (Option C.Fac)) (tpb : List C.Tf)
    (hlen : bs.length < 4294967296) :
    RB.readByteArrayAsData (C := C) ⟨byteArrayBytes bs ++ r, true, ver, fpb, tpb⟩ =
      (some bs, ⟨r, true, ver, fpb, tpb⟩) := by
  rw [RB.readByteArrayAsData, byteArrayBytes]
  rw [List.append_assoc, List.append_assoc]
  rw [RB.readUInt_u32 _ bs.length (bs ++ (List.replicate ((4 - bs.length % 4) % 4) 0 ++ r))
    rfl rfl hlen]
  have hcond : bs.length + (4 - bs.length % 4) % 4 ≤
      (bs ++ (List.replicate ((4 - bs.length % 4) % 4) 0 ++ r)).length := by
    simp only [List.length_append, List.length_replicate]
    omega
  have ht : List.take bs.length
      (bs ++ (List.replicate ((4 - bs.length % 4) % 4) 0 ++ r)) = bs := by
    rw [List.take_append_of_le_length (Nat.le_refl _)]
    exact List.take_length bs
  have hd : List.drop (bs.length + (4 - bs.length % 4) % 4)
      (bs ++ (List.replicate ((4 - bs.length % 4) % 4) 0 ++ r)) = r := by
    have hassoc : bs ++ (List.replicate ((4 - bs.length % 4) % 4) 0 ++ r) =
        (bs ++ List.replicate ((4 - bs.length % 4) % 4) 0) ++ r :=
      (List.append_assoc _ _ _).symm
    have hl : (bs ++ List.replicate ((4 - bs.length % 4) % 4) 0).length =
        bs.length + (4 - bs.length % 4) % 4 := by simp
    rw [hassoc, ← hl, List.drop_left]
  simp [hcond, ht, hd]

end SkiaPictureData

namespace SkiaPictureData

/-- The vertex factory undoes the length-prefixed vertex encoding. -/
theorem vertFromBuffer_enc {C : Codec} (L : Laws C) (x : C.Vert) (r : List Nat)
    (ver : Nat) (fpb : List (Option C.Fac)) (tpb : List C.Tf)
    (hlen : (C.encVert x).length < 4294967296) :
    vertFromBuffer C ⟨byteArrayBytes (C.encVert x) ++ r, true, ver, fpb, tpb⟩ =
      (some x, ⟨r, true, ver, fpb, tpb⟩) := by
  rw [vertFromBuffer]
  simp only [readByteArrayAsData_enc (C := C) (C.encVert x) r ver fpb tpb hlen]
  rw [L.vert x]

/-- The paint loop reads back exactly the paints written by
`flattenToBuffer`, appending them in order. -/
theorem readPaints_run {C : Codec} (L : Laws C) :
    ∀ (ps : List C.Paint) (st : DecSt C) (r : List Nat) (ver : Nat)
      (fpb : List (Option C.Fac)) (tpb : List C.Tf),
    readPaints C ps.length st ⟨(ps.map C.encPaint).flatten ++ r, true, ver, fpb, tpb⟩ =
      ({ st with paints := st.paints ++ ps }, ⟨r, true, ver, fpb, tpb⟩) := by
  intro ps
  induction ps with
  | nil =>
    intro st r ver fpb tpb
    simp [readPaints]
  | cons p ps ih =>
    intro st r ver fpb tpb
    rw [List.length_cons, readPaints]
    rw [List.map_cons, List.flatten_cons, List.append_assoc]
    simp only [decPaintRB_enc L p ((ps.map C.encPaint).flatten ++ r) ver fpb tpb,
      ih { st with paints := st.paints ++ [p] } r ver fpb tpb]
    simp

/-- The path loop reads back exactly the paths written by
`flattenToBuffer`. -/
theorem readPaths_run {C : Codec} (L : Laws C) :
    ∀ (ps : List C.Path) (st : DecSt C) (r : List Nat) (ver : Nat)
      (fpb : List (Option C.Fac)) (tpb : List C.Tf),
    readPaths C ps.length st ⟨(ps.map C.encPath).flatten ++ r, true, ver, fpb, tpb⟩ =
      ({ st with paths := st.paths ++ ps }, ⟨r, true, ver, fpb, tpb⟩) := by
  intro ps
  induction ps with
  | nil =>
    intro st r ver fpb tpb
    simp [readPaths]
  | cons p ps ih =>
    intro st r ver fpb tpb
    rw [List.length_cons, readPaths]
    rw [List.map_cons, List.flatten_cons, List.append_assoc]
    simp only [decPathRB_enc L p ((ps.map C.encPath).flatten ++ r) ver fpb tpb,
      ih { st with paths := st.paths ++ [p] } r ver fpb tpb]
    simp

/-- The `new_array_from_buffer` item loop succeeds over a concatenation of
well-encoded items, appending them in order. -/
theorem naLoop_run {C : Codec} {α : Type} (fac : RB C → Option α × RB C)
    (enc : α → List Nat) :
    ∀ (xs : List α),
    (∀ x ∈ xs, ∀ (r : List Nat) (ver : Nat) (fpb : List (Option C.Fac))
      (tpb : List C.Tf),
      fac ⟨enc x ++ r, true, ver, fpb, tpb⟩ = (some x, ⟨r, true, ver, fpb, tpb⟩)) →
    ∀ (acc : List α) (r : List Nat) (ver : Nat)
      (fpb : List (Option C.Fac)) (tpb : List C.Tf),
    naLoop fac xs.length ⟨(xs.map enc).flatten ++ r, true, ver, fpb, tpb⟩ acc =
      (acc ++ xs, ⟨r, true, ver, fpb, tpb⟩, true) := by
  intro xs
  induction xs with
  | nil =>
    intro _ acc r ver fpb tpb
    simp [naLoop]
  | cons x xs ih =>
    intro hfac acc r ver fpb tpb
    rw [List.length_cons, naLoop]
    rw [List.map_cons, List.flatten_cons, List.append_assoc]
    simp only [hfac x (List.mem_cons_self x xs) ((xs.map enc).flatten ++ r) ver fpb tpb,
      RB.validate, Bool.and_true, Bool.and_self, Bool.not_true, reduceIte]
    rw [ih (fun y hy => hfac y (List.mem_cons_of_mem x hy)) (acc ++ [x]) r ver fpb tpb]
    simp

end SkiaPictureData

namespace SkiaPictureData

/-- A buffer positioned at a section header is neither empty nor
invalid. -/
theorem tagSection_not_empty (T n : Nat) (X rest : List Nat) :
    (((tagSizeBytes T n ++ X) ++ rest).isEmpty || !true) = false := by
  simp [tagSizeBytes, u32Bytes]

/-- Stepping the inner loop over a whole paint section. -/
theorem peelPaints {C : Codec} (L : Laws C) (v f : Nat) (st : DecSt C)
    (ps : List C.Paint) (rest : List Nat) (ver : Nat)
    (fpb : List (Option C.Fac)) (tpb : List C.Tf)
    (hn : ps.length < 2147483648) :
    innerLoop v (f + 2) st
      ⟨(tagSizeBytes SK_PICT_PAINT_BUFFER_TAG ps.length ++ (ps.map C.encPaint).flatten) ++ rest,
        true, ver, fpb, tpb⟩ =
    innerLoop v (f + 1) { st with paints := st.paints ++ ps }
      ⟨rest, true, ver, fpb, tpb⟩ := by
  conv_lhs => rw [innerLoop]
  rw [if_neg (by rw [tagSection_not_empty]; exact Bool.false_ne_true)]
  rw [tagSizeBytes, List.append_assoc, List.append_assoc]
  rw [RB.readUInt_u32 _ SK_PICT_PAINT_BUFFER_TAG _ rfl rfl (by decide)]
  dsimp only
  rw [RB.readUInt_u32 _ ps.length ((ps.map C.encPaint).flatten ++ rest) rfl rfl (by omega)]
  dsimp only
  rw [parseBufferTag, if_pos rfl]
  rw [RB.validate]
  simp only [decide_eq_true hn, Bool.and_true, Bool.and_self, Bool.not_true, reduceIte]
  rw [readPaints_run L ps st rest ver fpb tpb]
  simp only [Bool.false_eq_true, if_false]

end SkiaPictureData

namespace SkiaPictureData

/-- Stepping the inner loop over a whole path section (tag, size, the
redundant inner count, then the paths). -/
theorem peelPaths {C : Codec} (L : Laws C) (v f : Nat) (st : DecSt C)
    (ps : List C.Path) (rest : List Nat) (ver : Nat)
    (fpb : List (Option C.Fac)) (tpb : List C.Tf)
    (hn : ps.length < 2147483648) (hne : ps ≠ []) :
    innerLoop v (f + 2) st
      ⟨(tagSizeBytes SK_PICT_PATH_BUFFER_TAG ps.length ++
          (u32Bytes ps.length ++ (ps.map C.encPath).flatten)) ++ rest,
        true, ver, fpb, tpb⟩ =
    innerLoop v (f + 1) { st with paths := st.paths ++ ps }
      ⟨rest, true, ver, fpb, tpb⟩ := by
  conv_lhs => rw [innerLoop]
  rw [if_neg (by rw [tagSection_not_empty]; exact Bool.false_ne_true)]
  rw [tagSizeBytes, List.append_assoc, List.append_assoc]
  rw [RB.readUInt_u32 _ SK_PICT_PATH_BUFFER_TAG _ rfl rfl (by decide)]
  dsimp only
  rw [RB.readUInt_u32 _ ps.length (u32Bytes ps.length ++ ((ps.map C.encPath).flatten ++ rest))
    rfl rfl (by omega)]
  dsimp only
  rw [parseBufferTag, if_neg (by decide), if_pos rfl,
    if_pos (List.length_pos.mpr hne)]
  rw [RB.readInt]
  rw [RB.readUInt_u32 _ ps.length ((ps.map C.encPath).flatten ++ rest) rfl rfl (by omega)]
  dsimp only
  rw [if_pos hn, RB.validate]
  simp only [decide_eq_true (Int.natCast_nonneg ps.length), Bool.and_true, Bool.and_self,
    Bool.not_true, reduceIte, Int.toNat_natCast]
  rw [readPaths_run L ps st rest ver fpb tpb]
  simp only [Bool.false_eq_true, if_false]

/-- Stepping the inner loop over a whole text-blob section. -/
theorem peelBlobs {C : Codec} (L : Laws C) (v f : Nat) (st : DecSt C)
    (bs : List C.Blob) (rest : List Nat) (ver : Nat)
    (fpb : List (Option C.Fac)) (tpb : List C.Tf)
    (hn : bs.length < 2147483648) (hne : bs ≠ []) (hst : st.blobs = []) :
    innerLoop v (f + 2) st
      ⟨(tagSizeBytes SK_PICT_TEXTBLOB_BUFFER_TAG bs.length ++ (bs.map C.encBlob).flatten) ++ rest,
        true, ver, fpb, tpb⟩ =
    innerLoop v (f + 1) { st with blobs := bs }
      ⟨rest, true, ver, fpb, tpb⟩ := by
  conv_lhs => rw [innerLoop]
  rw [if_neg (by rw [tagSection_not_empty]; exact Bool.false_ne_true)]
  rw [tagSizeBytes, List.append_assoc, List.append_assoc]
  rw [RB.readUInt_u32 _ SK_PICT_TEXTBLOB_BUFFER_TAG _ rfl rfl (by decide)]
  dsimp only
  rw [RB.readUInt_u32 _ bs.length ((bs.map C.encBlob).flatten ++ rest) rfl rfl (by omega)]
  dsimp only
  rw [parseBufferTag, if_neg (by decide), if_neg (by decide), if_pos rfl]
  rw [hst, newArrayFromBuffer, RB.validate]
  simp only [List.isEmpty_nil, decide_eq_true hn, Bool.and_true, Bool.and_self,
    Bool.true_and, Bool.not_true, reduceIte]
  rw [if_neg Bool.false_ne_true]
  rw [naLoop_run (blobFromBuffer C) C.encBlob bs
    (fun x _ => blobFromBuffer_enc L x) [] rest ver fpb tpb]
  rw [if_neg (fun hz => hne (List.eq_nil_of_length_eq_zero hz))]
  simp

/-- Stepping the inner loop over a whole vertices section: each entry is a
length-prefixed byte array of the vertex encoding. -/
theorem peelVerts {C : Codec} (L : Laws C) (v f : Nat) (st : DecSt C)
    (vs : List C.Vert) (rest : List Nat) (ver : Nat)
    (fpb : List (Option C.Fac)) (tpb : List C.Tf)
    (hn : vs.length < 2147483648) (hne : vs ≠ []) (hst : st.verts = [])
    (hlen : ∀ x ∈ vs, (C.encVert x).length < 4294967296) :
    innerLoop v (f + 2) st
      ⟨(tagSizeBytes SK_PICT_VERTICES_BUFFER_TAG vs.length ++
          (vs.map (fun x => byteArrayBytes (C.encVert x))).flatten) ++ rest,
        true, ver, fpb, tpb⟩ =
    innerLoop v (f + 1) { st with verts := vs }
      ⟨rest, true, ver, fpb, tpb⟩ := by
  conv_lhs => rw [innerLoop]
  rw [if_neg (by rw [tagSection_not_empty]; exact Bool.false_ne_true)]
  rw [tagSizeBytes, List.append_assoc, List.append_assoc]
  rw [RB.readUInt_u32 _ SK_PICT_VERTICES_BUFFER_TAG _ rfl rfl (by decide)]
  dsimp only
  rw [RB.readUInt_u32 _ vs.length
    ((vs.map (fun x => byteArrayBytes (C.encVert x))).flatten ++ rest) rfl rfl (by omega)]
  dsimp only
  rw [parseBufferTag, if_neg (by decide), if_neg (by decide), if_neg (by decide), if_pos rfl]
  rw [hst, newArrayFromBuffer, RB.validate]
  simp only [List.isEmpty_nil, decide_eq_true hn, Bool.and_true, Bool.and_self,
    Bool.true_and, Bool.not_true, reduceIte]
  rw [if_neg Bool.false_ne_true]
  rw [naLoop_run (vertFromBuffer C) (fun x => byteArrayBytes (C.encVert x)) vs
    (fun x hx r2 ver2 fpb2 tpb2 => vertFromBuffer_enc L x r2 ver2 fpb2 tpb2 (hlen x hx))
    [] rest ver fpb tpb]
  rw [if_neg (fun hz => hne (List.eq_nil_of_length_eq_zero hz))]
  simp

/-- Stepping the inner loop over a whole image section. -/
theorem peelImages {C : Codec} (L : Laws C) (v f : Nat) (st : DecSt C)
    (is : List C.Image) (rest : List Nat) (ver : Nat)
    (fpb : List (Option C.Fac)) (tpb : List C.Tf)
    (hn : is.length < 2147483648) (hne : is ≠ []) (hst : st.images = []) :
    innerLoop v (f + 2) st
      ⟨(tagSizeBytes SK_PICT_IMAGE_BUFFER_TAG is.length ++ (is.map C.encImage).flatten) ++ rest,
        true, ver, fpb, tpb⟩ =
    innerLoop v (f + 1) { st with images := is }
      ⟨rest, true, ver, fpb, tpb⟩ := by
  conv_lhs => rw [innerLoop]
  rw [if_neg (by rw [tagSection_not_empty]; exact Bool.false_ne_true)]
  rw [tagSizeBytes, List.append_assoc, List.append_assoc]
  rw [RB.readUInt_u32 _ SK_PICT_IMAGE_BUFFER_TAG _ rfl rfl (by decide)]
  dsimp only
  rw [RB.readUInt_u32 _ is.length ((is.map C.encImage).flatten ++ rest) rfl rfl (by omega)]
  dsimp only
  rw [parseBufferTag, if_neg (by decide), if_neg (by decide), if_neg (by decide),
    if_neg (by decide), if_pos rfl]
  rw [hst, newArrayFromBuffer, RB.validate]
  simp only [List.isEmpty_nil, decide_eq_true hn, Bool.and_true, Bool.and_self,
    Bool.true_and, Bool.not_true, reduceIte]
  rw [if_neg Bool.false_ne_true]
  rw [naLoop_run (imageFromBuffer C) C.encImage is
    (fun x _ => imageFromBuffer_enc L x) [] rest ver fpb tpb]
  rw [if_neg (fun hz => hne (List.eq_nil_of_length_eq_zero hz))]
  simp

/-- The inner loop halts at the end of the buffer. -/
theorem innerLoop_stop {C : Codec} (v fuel : Nat) (st : DecSt C) (rb : RB C)
    (h : rb.rem = []) : innerLoop v fuel st rb = (st, rb) := by
  cases fuel with
  | zero => rfl
  | succ f =>
    rw [innerLoop, if_pos (by simp [h])]

end SkiaPictureData

namespace SkiaPictureData

/-- Inner-loop run over the (optional) image section and end of buffer. -/
theorem stageImages {C : Codec} (L : Laws C) (v : Nat) (P : Pic C) (st : DecSt C)
    (ver : Nat) (fpb : List (Option C.Fac)) (tpb : List C.Tf)
    (hst : st.images = []) (hn : P.images.length < 2147483648) :
    ∀ f, 2 ≤ f →
    innerLoop v f st
      ⟨(if P.images.isEmpty then [] else
          tagSizeBytes SK_PICT_IMAGE_BUFFER_TAG P.images.length ++
            (P.images.map C.encImage).flatten),
        true, ver, fpb, tpb⟩ =
      ({ st with images := P.images }, ⟨[], true, ver, fpb, tpb⟩) := by
  intro f hf
  by_cases he : P.images.isEmpty
  · rw [if_pos he, innerLoop_stop _ _ _ _ rfl]
    have hni : P.images = [] := List.isEmpty_iff.mp he
    rw [hni, ← hst]
  · rw [if_neg he]
    obtain ⟨g, rfl⟩ : ∃ g, f = g + 2 := ⟨f - 2, by omega⟩
    rw [← List.append_nil (tagSizeBytes SK_PICT_IMAGE_BUFFER_TAG P.images.length ++
      (P.images.map C.encImage).flatten)]
    rw [peelImages L v g st P.images [] ver fpb tpb hn
      (fun hh => he (by rw [hh]; rfl)) hst]
    exact innerLoop_stop _ _ _ _ rfl

/-- Inner-loop run over the (optional) vertices and image sections. -/
theorem stageVerts {C : Codec} (L : Laws C) (v : Nat) (P : Pic C) (st : DecSt C)
    (ver : Nat) (fpb : List (Option C.Fac)) (tpb : List C.Tf)
    (hstV : st.verts = []) (hstI : st.images = [])
    (hnV : P.verts.length < 2147483648) (hnI : P.images.length < 2147483648)
    (hlen : ∀ x ∈ P.verts, (C.encVert x).length < 4294967296) :
    ∀ f, 3 ≤ f →
    innerLoop v f st
      ⟨(if P.verts.isEmpty then [] else
          tagSizeBytes SK_PICT_VERTICES_BUFFER_TAG P.verts.length ++
            (P.verts.map (fun x => byteArrayBytes (C.encVert x))).flatten) ++
        (if P.images.isEmpty then [] else
          tagSizeBytes SK_PICT_IMAGE_BUFFER_TAG P.images.length ++
            (P.images.map C.encImage).flatten),
        true, ver, fpb, tpb⟩ =
      ({ st with verts := P.verts, images := P.images }, ⟨[], true, ver, fpb, tpb⟩) := by
  intro f hf
  by_cases he : P.verts.isEmpty
  · have hv : P.verts = [] := List.isEmpty_iff.mp he
    rw [if_pos he, List.nil_append,
      stageImages L v P st ver fpb tpb hstI hnI f (by omega)]
    rw [hv, ← hstV]
  · rw [if_neg he]
    obtain ⟨g, rfl⟩ : ∃ g, f = g + 2 := ⟨f - 2, by omega⟩
    rw [peelVerts L v g st P.verts _ ver fpb tpb hnV
      (fun hh => he (by rw [hh]; rfl)) hstV hlen]
    exact stageImages L v P { st with verts := P.verts } ver fpb tpb hstI hnI
      (g + 1) (by omega)

/-- Inner-loop run over the (optional) text-blob, vertices and image
sections. -/
theorem stageBlobs {C : Codec} (L : Laws C) (v : Nat) (P : Pic C) (st : DecSt C)
    (ver : Nat) (fpb : List (Option C.Fac)) (tpb : List C.Tf)
    (hstB : st.blobs = []) (hstV : st.verts = []) (hstI : st.images = [])
    (hnB : P.blobs.length < 2147483648)
    (hnV : P.verts.length < 2147483648) (hnI : P.images.length < 2147483648)
    (hlen : ∀ x ∈ P.verts, (C.encVert x).length < 4294967296) :
    ∀ f, 4 ≤ f →
    innerLoop v f st
      ⟨(if P.blobs.isEmpty then [] else
          tagSizeBytes SK_PICT_TEXTBLOB_BUFFER_TAG P.blobs.length ++
            (P.blobs.map C.encBlob).flatten) ++
        ((if P.verts.isEmpty then [] else
          tagSizeBytes SK_PICT_VERTICES_BUFFER_TAG P.verts.length ++
            (P.verts.map (fun x => byteArrayBytes (C.encVert x))).flatten) ++
        (if P.images.isEmpty then [] else
          tagSizeBytes SK_PICT_IMAGE_BUFFER_TAG P.images.length ++
            (P.images.map C.encImage).flatten)),
        true, ver, fpb, tpb⟩ =
      ({ st with blobs := P.blobs, verts := P.verts, images := P.images },
        ⟨[], true, ver, fpb, tpb⟩) := by
  intro f hf
  by_cases he : P.blobs.isEmpty
  · have hb : P.blobs = [] := List.isEmpty_iff.mp he
    rw [if_pos he, List.nil_append,
      stageVerts L v P st ver fpb tpb hstV hstI hnV hnI hlen f (by omega)]
    rw [hb, ← hstB]
  · rw [if_neg he]
    obtain ⟨g, rfl⟩ : ∃ g, f = g + 2 := ⟨f - 2, by omega⟩
    rw [peelBlobs L v g st P.blobs _ ver fpb tpb hnB
      (fun hh => he (by rw [hh]; rfl)) hstB]
    exact stageVerts L v P { st with blobs := P.blobs } ver fpb tpb hstV hstI
      hnV hnI hlen (g + 1) (by omega)

/-- Inner-loop run over the (optional) path, text-blob, vertices and image
sections. -/
theorem stagePaths {C : Codec} (L : Laws C) (v : Nat) (P : Pic C) (st : DecSt C)
    (ver : Nat) (fpb : List (Option C.Fac)) (tpb : List C.Tf)
    (hstP : st.paths = []) (hstB : st.blobs = []) (hstV : st.verts = [])
    (hstI : st.images = [])
    (hnP : P.paths.length < 2147483648) (hnB : P.blobs.length < 2147483648)
    (hnV : P.verts.length < 2147483648) (hnI : P.images.length < 2147483648)
    (hlen : ∀ x ∈ P.verts, (C.encVert x).length < 4294967296) :
    ∀ f, 5 ≤ f →
    innerLoop v f st
      ⟨(if P.paths.isEmpty then [] else
          tagSizeBytes SK_PICT_PATH_BUFFER_TAG P.paths.length ++
            (u32Bytes P.paths.length ++ (P.paths.map C.encPath).flatten)) ++
        ((if P.blobs.isEmpty then [] else
          tagSizeBytes SK_PICT_TEXTBLOB_BUFFER_TAG P.blobs.length ++
            (P.blobs.map C.encBlob).flatten) ++
        ((if P.verts.isEmpty then [] else
          tagSizeBytes SK_PICT_VERTICES_BUFFER_TAG P.verts.length ++
            (P.verts.map (fun x => byteArrayBytes (C.encVert x))).flatten) ++
        (if P.images.isEmpty then [] else
          tagSizeBytes SK_PICT_IMAGE_BUFFER_TAG P.images.length ++
            (P.images.map C.encImage).flatten))),
        true, ver, fpb, tpb⟩ =
      ({ st with paths := P.paths, blobs := P.blobs, verts := P.verts, images := P.images },
        ⟨[], true, ver, fpb, tpb⟩) := by
  intro f hf
  by_cases he : P.paths.isEmpty
  · have hp : P.paths = [] := List.isEmpty_iff.mp he
    rw [if_pos he, List.nil_append,
      stageBlobs L v P st ver fpb tpb hstB hstV hstI hnB hnV hnI hlen f (by omega)]
    rw [hp, ← hstP]
  · rw [if_neg he]
    obtain ⟨g, rfl⟩ : ∃ g, f = g + 2 := ⟨f - 2, by omega⟩
    rw [peelPaths L v g st P.paths _ ver fpb tpb hnP (fun hh => he (by rw [hh]; rfl))]
    have := stageBlobs L v P { st with paths := st.paths ++ P.paths } ver fpb tpb
      hstB hstV hstI hnB hnV hnI hlen (g + 1) (by omega)
    rw [this, hstP, List.nil_append]

/-- Inner-loop run over the whole scratch buffer produced by
`flattenToBuffer`. -/
theorem innerLoop_bufBytes {C : Codec} (L : Laws C) (v : Nat) (P : Pic C)
    (st : DecSt C) (ver : Nat) (fpb : List (Option C.Fac)) (tpb : List C.Tf)
    (hstPa : st.paints = []) (hstP : st.paths = []) (hstB : st.blobs = [])
    (hstV : st.verts = []) (hstI : st.images = [])
    (hnPa : P.paints.length < 2147483648)
    (hnP : P.paths.length < 2147483648) (hnB : P.blobs.length < 2147483648)
    (hnV : P.verts.length < 2147483648) (hnI : P.images.length < 2147483648)
    (hlen : ∀ x ∈ P.verts, (C.encVert x).length < 4294967296) :
    ∀ f, 6 ≤ f →
    innerLoop v f st ⟨bufBytes C P, true, ver, fpb, tpb⟩ =
      ({ st with paints := P.paints, paths := P.paths, blobs := P.blobs, verts := P.verts, images := P.images },
        ⟨[], true, ver, fpb, tpb⟩) := by
  intro f hf
  rw [bufBytes]
  simp only [List.append_assoc]
  by_cases he : P.paints.isEmpty
  · have hp : P.paints = [] := List.isEmpty_iff.mp he
    rw [if_pos he, List.nil_append,
      stagePaths L v P st ver fpb tpb hstP hstB hstV hstI hnP hnB hnV hnI hlen
        f (by omega)]
    rw [hp, ← hstPa]
  · rw [if_neg he]
    obtain ⟨g, rfl⟩ : ∃ g, f = g + 2 := ⟨f - 2, by omega⟩
    rw [peelPaints L v g st P.paints _ ver fpb tpb hnPa]
    have := stagePaths L v P { st with paints := st.paints ++ P.paints } ver fpb tpb
      hstP hstB hstV hstI hnP hnB hnV hnI hlen (g + 1) (by omega)
    rw [this, hstPa, List.nil_append]

end SkiaPictureData

namespace SkiaPictureData

/-- The outer loop stops successfully at the EOF word. -/
theorem parseLoop_eof {C : Codec} (v f : Nat) (st : DecSt C) (rest : List Nat)
    (top : TopPtr C) :
    parseLoop v (f + 1) st (u32Bytes SK_PICT_EOF_TAG ++ rest) top = .ok (st, rest) := by
  rw [parseLoop, readU32_u32Bytes _ _ (by decide)]
  simp

/-- Stepping the outer loop over a whole `READER` section. -/
theorem parseLoop_reader {C : Codec} (v f : Nat) (st : DecSt C) (o rest : List Nat)
    (top : TopPtr C) (hn : o.length < 4294967296) :
    parseLoop v (f + 2) st (tagSizeBytes SK_PICT_READER_TAG o.length ++ (o ++ rest)) top =
      parseLoop v (f + 1) { st with opData := some o } rest top := by
  conv_lhs => rw [parseLoop]
  rw [tagSizeBytes, List.append_assoc]
  rw [readU32_u32Bytes _ _ (by decide)]
  dsimp only
  rw [if_neg (by decide)]
  rw [readU32_u32Bytes _ _ hn]
  dsimp only
  rw [parseStreamTag, if_pos rfl, readBytes_append]

/-- Stepping the outer loop over a whole `FACTORY` section. -/
theorem parseLoop_factory {C : Codec} (v f : Nat) (st : DecSt C)
    (fs : List C.Fac) (rest : List Nat) (top : TopPtr C)
    (hchunk : chunkSize C fs < 4294967296) (hcount : fs.length < 4294967296)
    (hlen : ∀ g ∈ fs, ∀ nm, C.facName g = some nm → nm.length < 4294967296) :
    parseLoop v (f + 2) st (factorySection C fs ++ rest) top =
      parseLoop v (f + 1)
        { st with factPB := some (fs.map (fun g => C.nameToFac
            (match C.facName g with | none => [] | some nm => nm))) }
        rest top := by
  conv_lhs => rw [parseLoop]
  rw [factorySection, tagSizeBytes]
  simp only [List.append_assoc]
  rw [readU32_u32Bytes _ _ (by decide)]
  dsimp only
  rw [if_neg (by decide)]
  rw [readU32_u32Bytes _ _ hchunk]
  dsimp only
  rw [parseStreamTag, if_neg (by decide), if_pos rfl]
  rw [readU32_u32Bytes _ _ hcount]
  dsimp only
  rw [readFacs_section C fs rest hlen]

/-- Stepping the outer loop over a whole `TYPEFACE` section. -/
theorem parseLoop_typeface {C : Codec} (L : Laws C) (v f : Nat) (st : DecSt C)
    (ts : List C.Tf) (rest : List Nat) (top : TopPtr C)
    (hcount : ts.length < 4294967296) :
    parseLoop v (f + 2) st (typefaceSection C ts ++ rest) top =
      parseLoop v (f + 1) { st with tfPB := ts } rest top := by
  conv_lhs => rw [parseLoop]
  rw [typefaceSection, tagSizeBytes]
  simp only [List.append_assoc]
  rw [readU32_u32Bytes _ _ (by decide)]
  dsimp only
  rw [if_neg (by decide)]
  rw [readU32_u32Bytes _ _ hcount]
  dsimp only
  rw [parseStreamTag, if_neg (by decide), if_neg (by decide), if_pos rfl]
  rw [readTfs_section C L ts rest]

/-- Stepping the outer loop over a whole `BUFFER_SIZE` section: the inner
loop consumes the scratch buffer and populates the five resource arrays. -/
theorem parseLoop_buffer {C : Codec} (L : Laws C) (v f : Nat) (P : Pic C)
    (st : DecSt C) (rest : List Nat) (top : TopPtr C)
    (fpb : List (Option C.Fac)) (tt : List C.Tf)
    (hf : 6 ≤ f)
    (hfpb : st.factPB = some fpb) (htt : chooseTfTable st top = some tt)
    (hstPa : st.paints = []) (hstP : st.paths = []) (hstB : st.blobs = [])
    (hstV : st.verts = []) (hstI : st.images = [])
    (hblen : (bufBytes C P).length < 4294967296)
    (hnPa : P.paints.length < 2147483648)
    (hnP : P.paths.length < 2147483648) (hnB : P.blobs.length < 2147483648)
    (hnV : P.verts.length < 2147483648) (hnI : P.images.length < 2147483648)
    (hlen : ∀ x ∈ P.verts, (C.encVert x).length < 4294967296) :
    parseLoop v (f + 2) st
      (tagSizeBytes SK_PICT_BUFFER_SIZE_TAG (bufBytes C P).length ++
        (bufBytes C P ++ rest)) top =
      parseLoop v (f + 1)
        { st with paints := P.paints, paths := P.paths, blobs := P.blobs, verts := P.verts, images := P.images }
        rest top := by
  conv_lhs => rw [parseLoop]
  rw [tagSizeBytes, List.append_assoc]
  rw [readU32_u32Bytes _ _ (by decide)]
  dsimp only
  rw [if_neg (by decide)]
  rw [readU32_u32Bytes _ _ hblen]
  dsimp only
  rw [parseStreamTag, if_neg (by decide), if_neg (by decide), if_neg (by decide),
    if_neg (by decide), if_pos rfl]
  rw [readBytes_append]
  dsimp only
  rw [hfpb, htt]
  dsimp only
  rw [innerLoop_bufBytes L v P st v fpb tt hstPa hstP hstB hstV hstI
    hnPa hnP hnB hnV hnI hlen f hf]
  simp [hfpb]

end SkiaPictureData

namespace SkiaPictureData

/-- The child loop of the `PICTURE` handler decodes a serialized sub-picture
list back to its (drawable-stripped) pictures, given that each individual
sub-picture's serialization decodes correctly. -/
theorem readPics_serList {C : Codec} (v : Nat) (ps : List (Pic C))
    (ih : ∀ p ∈ ps, ∀ f, picFuel p ≤ f → ∀ (rest : List Nat) (top : TopPtr C),
      createFromStream v f (serBytes true p ++ rest) top = .ok (toD (dropDraws p), rest)) :
    ∀ (f : Nat), picFuelList ps + 1 ≤ f → ∀ (rest : List Nat) (top : TopPtr C),
      readPics v f ps.length (serList ps ++ rest) top =
        .ok (toDList (dropDrawsList ps), rest) := by
  induction ps with
  | nil =>
    intro f hf rest top
    obtain ⟨g, rfl⟩ : ∃ g, f = g + 1 := ⟨f - 1, by omega⟩
    rw [serList, List.length_nil, readPics, List.nil_append]
    rfl
  | cons q qs iq =>
    intro f hf rest top
    obtain ⟨g, rfl⟩ : ∃ g, f = g + 1 := ⟨f - 1, by omega⟩
    rw [serList, List.length_cons, readPics, List.append_assoc]
    rw [picFuelList] at hf
    rw [ih q (List.mem_cons_self q qs) g (by omega) (serList qs ++ rest) top]
    dsimp only
    rw [iq (fun p hp => ih p (List.mem_cons_of_mem q hp)) g (by omega) rest top]
    rfl

/-- Stepping the outer loop over a whole `PICTURE` section. -/
theorem parseLoop_pics {C : Codec} (v f : Nat) (st : DecSt C)
    (ps : List (Pic C)) (rest : List Nat) (top : TopPtr C)
    (ih : ∀ p ∈ ps, ∀ f, picFuel p ≤ f → ∀ (rest : List Nat) (top : TopPtr C),
      createFromStream v f (serBytes true p ++ rest) top = .ok (toD (dropDraws p), rest))
    (hcount : ps.length < 4294967296)
    (hf : picFuelList ps + 1 ≤ f) :
    parseLoop v (f + 2) st
      (tagSizeBytes SK_PICT_PICTURE_TAG ps.length ++ (serList ps ++ rest)) top =
      parseLoop v (f + 1) { st with pics := st.pics ++ toDList (dropDrawsList ps) }
        rest top := by
  conv_lhs => rw [parseLoop]
  rw [tagSizeBytes, List.append_assoc]
  rw [readU32_u32Bytes _ _ (by decide)]
  dsimp only
  rw [if_neg (by decide)]
  rw [readU32_u32Bytes _ _ hcount]
  dsimp only
  rw [parseStreamTag, if_neg (by decide), if_neg (by decide), if_neg (by decide),
    if_pos rfl]
  rw [readPics_serList v ps ih f hf rest (resolveChild st top)]

/-- Running the outer loop over the tail of a serialized picture — the
`BUFFER_SIZE` section, the optional `PICTURE` section and the `EOF` word —
from a state whose resource arrays are still empty. -/
theorem parseLoop_bufPicsEof {C : Codec} (L : Laws C) (v : Nat) (P : Pic C)
    (st : DecSt C) (rest : List Nat) (top : TopPtr C)
    (fpb : List (Option C.Fac)) (f : Nat)
    (hfpb : st.factPB = some fpb) (hct : chooseTfTable st top ≠ none)
    (hstPa : st.paints = []) (hstP : st.paths = []) (hstB : st.blobs = [])
    (hstV : st.verts = []) (hstI : st.images = []) (hstPics : st.pics = [])
    (hblen : (bufBytes C P).length < 4294967296)
    (hnPa : P.paints.length < 2147483648)
    (hnP : P.paths.length < 2147483648) (hnB : P.blobs.length < 2147483648)
    (hnV : P.verts.length < 2147483648) (hnI : P.images.length < 2147483648)
    (hpcnt : P.pics.length < 4294967296)
    (hlen : ∀ x ∈ P.verts, (C.encVert x).length < 4294967296)
    (ih : ∀ p ∈ P.pics, ∀ f, picFuel p ≤ f → ∀ (rest : List Nat) (top : TopPtr C),
      createFromStream v f (serBytes true p ++ rest) top = .ok (toD (dropDraws p), rest))
    (hf : picFuelList P.pics + 8 ≤ f) :
    parseLoop v f st
      (tagSizeBytes SK_PICT_BUFFER_SIZE_TAG (bufBytes C P).length ++
        (bufBytes C P ++
          ((if P.pics.isEmpty then [] else
              tagSizeBytes SK_PICT_PICTURE_TAG P.pics.length ++ serList P.pics) ++
            (u32Bytes SK_PICT_EOF_TAG ++ rest)))) top =
      .ok ({ st with paints := P.paints, paths := P.paths, blobs := P.blobs, verts := P.verts, images := P.images, pics := toDList (dropDrawsList P.pics) }, rest) := by
  obtain ⟨g, rfl⟩ : ∃ g, f = g + 2 := ⟨f - 2, by omega⟩
  obtain ⟨tt, htt⟩ : ∃ tt, chooseTfTable st top = some tt := by
    cases hc : chooseTfTable st top with
    | none => exact absurd hc hct
    | some t => exact ⟨t, rfl⟩
  rw [parseLoop_buffer L v g P st _ top fpb tt (by omega) hfpb htt hstPa hstP hstB
    hstV hstI hblen hnPa hnP hnB hnV hnI hlen]
  by_cases hps : P.pics.isEmpty
  · rw [if_pos hps, List.nil_append, parseLoop_eof]
    have hnil : P.pics = [] := List.isEmpty_iff.mp hps
    rw [hnil, hstPics]
    rfl
  · rw [if_neg hps, List.append_assoc]
    obtain ⟨g2, hg2⟩ : ∃ g2, g + 1 = g2 + 2 := ⟨g - 1, by omega⟩
    rw [hg2, parseLoop_pics v g2 _ P.pics _ top ih hpcnt (by omega)]
    rw [parseLoop_eof]
    rw [hstPics, List.nil_append]

end SkiaPictureData

namespace SkiaPictureData

/-- One serialized picture parses back to its drawable-stripped self, given
that each of its serialized sub-pictures already does: the non-recursive
core of the round-trip. -/
theorem ser_parse_core {C : Codec} (L : Laws C) (v : Nat) (P : Pic C)
    (b : Bool) (f : Nat) (rest : List Nat) (top : TopPtr C)
    (hwf : WFb P = true) (hf : picFuel P ≤ f)
    (ih : ∀ p ∈ P.pics, ∀ f, picFuel p ≤ f → ∀ (rest : List Nat) (top : TopPtr C),
      createFromStream v f (serBytes true p ++ rest) top = .ok (toD (dropDraws p), rest)) :
    createFromStream v f (serBytes b P ++ rest) top = .ok (toD (dropDraws P), rest) := by
  cases P with
  | mk o pa pt bl vt im dr ps =>
    simp only [WFb, Bool.and_eq_true, decide_eq_true_eq, List.all_eq_true,
      and_assoc] at hwf
    obtain ⟨ho, hpa, hpt, hbl, hvt, him, hpscnt, hbuf, hchunk, hfcnt, hfnm, htfc,
      hvertlen, hwfl⟩ := hwf
    have hfnm2 : ∀ g ∈ flatFacs C (Pic.mk o pa pt bl vt im dr ps) [],
        ∀ nm, C.facName g = some nm → nm.length < 4294967296 := by
      intro g hg nm hnm
      have h := hfnm g hg
      rw [hnm] at h
      exact of_decide_eq_true h
    have hsub : substTop top ≠ TopPtr.null := by
      cases top <;> simp [substTop]
    simp only [picFuel] at hf
    obtain ⟨g, rfl⟩ : ∃ g, f = g + 1 := ⟨f - 1, by omega⟩
    rw [createFromStream, serBytes]
    simp only [List.append_assoc]
    obtain ⟨g1, hg1⟩ : ∃ g1, g = g1 + 2 := ⟨g - 2, by omega⟩
    rw [hg1, parseLoop_reader v g1 (emptySt C) o _ (substTop top) ho]
    obtain ⟨g2, hg2⟩ : ∃ g2, g1 + 1 = g2 + 2 := ⟨g1 - 1, by omega⟩
    rw [hg2, parseLoop_factory v g2 { emptySt C with opData := some o }
      (flatFacs C (Pic.mk o pa pt bl vt im dr ps) []) _ (substTop top)
      hchunk hfcnt hfnm2]
    cases b with
    | true =>
      rw [if_pos rfl, List.nil_append]
      have hstep := parseLoop_bufPicsEof L v (Pic.mk o pa pt bl vt im dr ps)
        { { emptySt C with opData := some o } with factPB := some ((flatFacs C (Pic.mk o pa pt bl vt im dr ps) []).map (fun g => C.nameToFac (match C.facName g with | none => [] | some nm => nm))) }
        rest (substTop top)
        ((flatFacs C (Pic.mk o pa pt bl vt im dr ps) []).map (fun g => C.nameToFac (match C.facName g with | none => [] | some nm => nm)))
        (g2 + 1) rfl (chooseTfTable_isSome _ _ hsub) rfl rfl rfl rfl rfl rfl
        hbuf hpa hpt hbl hvt him hpscnt hvertlen ih (by simp only [Pic.pics]; omega)
      simp only [Pic.opData, Pic.paints, Pic.paths, Pic.blobs, Pic.verts, Pic.images, Pic.draws, Pic.pics] at hstep ⊢
      rw [hstep]
      rfl
    | false =>
      rw [if_neg Bool.false_ne_true]
      obtain ⟨g3, hg3⟩ : ∃ g3, g2 + 1 = g3 + 2 := ⟨g2 - 1, by omega⟩
      rw [hg3, parseLoop_typeface L v g3 _
        (topTfList C (Pic.mk o pa pt bl vt im dr ps)) _ (substTop top) htfc]
      have hstep := parseLoop_bufPicsEof L v (Pic.mk o pa pt bl vt im dr ps)
        { { { emptySt C with opData := some o } with factPB := some ((flatFacs C (Pic.mk o pa pt bl vt im dr ps) []).map (fun g => C.nameToFac (match C.facName g with | none => [] | some nm => nm))) } with tfPB := topTfList C (Pic.mk o pa pt bl vt im dr ps) }
        rest (substTop top)
        ((flatFacs C (Pic.mk o pa pt bl vt im dr ps) []).map (fun g => C.nameToFac (match C.facName g with | none => [] | some nm => nm)))
        (g3 + 1) rfl (chooseTfTable_isSome _ _ hsub) rfl rfl rfl rfl rfl rfl
        hbuf hpa hpt hbl hvt him hpscnt hvertlen ih (by simp only [Pic.pics]; omega)
      simp only [Pic.opData, Pic.paints, Pic.paths, Pic.blobs, Pic.verts, Pic.images, Pic.draws, Pic.pics] at hstep ⊢
      rw [hstep]
      rfl

end SkiaPictureData

namespace SkiaPictureData

mutual

/-- The round trip for one well-formed picture, by structural induction on
the nested picture tree. -/
theorem ser_parse {C : Codec} (L : Laws C) (v : Nat) (P : Pic C) :
    ∀ (b : Bool) (f : Nat), WFb P = true → picFuel P ≤ f →
      ∀ (rest : List Nat) (top : TopPtr C),
        createFromStream v f (serBytes b P ++ rest) top =
          .ok (toD (dropDraws P), rest) := by
  cases P with
  | mk o pa pt bl vt im dr ps =>
    intro b f hwf hfl rest top
    have hwfl : WFbList ps = true := by
      simp only [WFb, Bool.and_eq_true] at hwf
      exact hwf.2
    exact ser_parse_core L v (Pic.mk o pa pt bl vt im dr ps) b f rest top hwf hfl
      (fun p hp f2 hf2 rest2 top2 =>
        ser_parse_list L v ps hwfl p hp f2 hf2 rest2 top2)

/-- The round trip for every member of a well-formed sub-picture list. -/
theorem ser_parse_list {C : Codec} (L : Laws C) (v : Nat) (ps : List (Pic C)) :
    WFbList ps = true → ∀ p ∈ ps, ∀ (f : Nat), picFuel p ≤ f →
      ∀ (rest : List Nat) (top : TopPtr C),
        createFromStream v f (serBytes true p ++ rest) top =
          .ok (toD (dropDraws p), rest) := by
  cases ps with
  | nil =>
    intro _ p hp
    exact absurd hp (List.not_mem_nil p)
  | cons q qs =>
    intro hwf p hp f hf rest top
    rw [WFbList] at hwf
    obtain ⟨hq, hqs⟩ := (Bool.and_eq_true _ _).mp hwf
    rcases List.mem_cons.mp hp with rfl | hp2
    · exact ser_parse L v p true f hq hf rest top
    · exact ser_parse_list L v qs hqs p hp2 f hf rest top

end

end SkiaPictureData

namespace SkiaPictureData

/-- The trivial codec satisfies the flattenable round-trip laws. -/
theorem UC_laws : Laws UC where
  paint := fun _ _ _ _ => rfl
  path := fun _ _ => rfl
  blob := fun _ _ _ _ => rfl
  vert := fun _ => rfl
  image := fun _ _ _ _ => rfl
  tf := fun _ _ => rfl

/-- C1: for every picture whose resources are well-formed — with the
correction that the stream serializer drops drawables — decoding the byte
stream produced by `serialize` yields the picture with the same opcode
bytes, the same paints, paths, text blobs, vertices, images and the same
sub-picture tree, modulo each flattenable's own round-trip (the `Laws`
hypothesis), with every drawable array empty. -/
theorem C1_round_trip_amended {C : Codec} (L : Laws C) (v : Nat) (P : Pic C)
    (f : Nat) (rest : List Nat) (top : TopPtr C)
    (hwf : WFb P = true) (hf : picFuel P ≤ f) :
    createFromStream v f (serBytes false P ++ rest) top =
      .ok (toD (dropDraws P), rest) :=
  ser_parse L v P false f hwf hf rest top

/-- Witness for C1 amended: a concrete picture with every resource kind and
a sub-picture round-trips through the trivial codec. -/
theorem C1_round_trip_amended_witness :
    WFb rtPic = true ∧ picFuel rtPic ≤ 50 ∧
    createFromStream (C := UC) 0 50 (serBytes false rtPic ++ [7]) .null =
      .ok (toD (dropDraws rtPic), [7]) :=
  ⟨by decide, by decide,
    C1_round_trip_amended UC_laws 0 rtPic 50 [7] .null (by decide) (by decide)⟩

end SkiaPictureData
